import Mathlib

/-!
ASCParser: the per-line decoder of `src/ASCParser.c`.

A shallow embedding of the line loop of `main` (lines 74-251 of the source),
of its helper `to_upper` and of `get_output_filename`.

Representation.
* A C string is the list of its bytes before the terminating NUL, each
  byte written as the `Char` with the same code.  `strlen` is `List.length`.
* `unsigned int` is 32 bits wide and `long` is 64 bits wide (LP64); values
  are natural numbers or integers with the wrap-around written out.
* A `char buf[n]` that receives text through `sprintf`, `strcpy` or
  `sscanf` is modelled by the text that the call produces.  When that text
  has more than `n - 1` characters the C program writes past the end of
  `buf` and changes the objects next to it; what it prints then is not
  determined by the source.  `fits` says whether a text stays inside its
  array, `no_overrun` and `run_line` say whether every write of a line does;
  `run_line` gives `Outcome.overrun` for a line on which one does not.
* Floating point is outside the embedding: the time of a line is carried as
  the input item that `%lf` reads it from, and the text `%.6f` prints for it
  is a parameter of the output functions.
* Allocations (`malloc`, `strdup`) succeed.
-/

namespace ASCParser

/-! ## Constants of the source -/

/-- Line 10: `#define MAX_DATA_COUNT 8`. -/
def MAX_DATA_COUNT : Nat := 8

/-- Number of values of an `unsigned int` (32 bits). -/
def UINT_MOD : Nat := 4294967296

/-- Largest `long` (64 bits). -/
def LONG_MAX : Int := 9223372036854775807

/-- Smallest `long` (64 bits). -/
def LONG_MIN : Int := -9223372036854775808

/-- Text `s` (without its NUL) stays inside a `char` buffer of `cap` bytes. -/
def fits (cap : Nat) (s : List Char) : Prop := s.length + 1 ≤ cap

instance (cap : Nat) (s : List Char) : Decidable (fits cap s) := by
  unfold fits; infer_instance

/-! ## C library functions used by the decoder -/

/-- Library function `strncmp(s1, s2, n)`: compares at most `n` bytes,
where the end of a string counts as the byte 0; the result is the
difference of the first pair of bytes that differ, 0 when there is none. -/
def strncmp : List Char → List Char → Nat → Int
  | _, _, 0 => 0
  | [], [], _ + 1 => 0
  | [], c2 :: _, _ + 1 => 0 - (c2.toNat : Int)
  | c1 :: _, [], _ + 1 => (c1.toNat : Int)
  | c1 :: r1, c2 :: r2, n + 1 =>
    if c1 = c2 then strncmp r1 r2 n else (c1.toNat : Int) - (c2.toNat : Int)

/-- Library function `strcmp(s1, s2)`: as `strncmp` without the bound. -/
def strcmp : List Char → List Char → Int
  | [], [] => 0
  | [], c2 :: _ => 0 - (c2.toNat : Int)
  | c1 :: _, [] => (c1.toNat : Int)
  | c1 :: r1, c2 :: r2 =>
    if c1 = c2 then strcmp r1 r2 else (c1.toNat : Int) - (c2.toNat : Int)

/-- Library function `isspace` in the C locale: space, `\t`, `\n`, `\v`, `\f`, `\r`. -/
def isspace (c : Char) : Bool :=
  c = ' ' || (9 ≤ c.toNat && c.toNat ≤ 13)

/-- Value of a base-16 digit, `none` for any other byte. -/
def hexval (c : Char) : Option Nat :=
  if '0' ≤ c ∧ c ≤ '9' then some (c.toNat - 48)
  else if 'a' ≤ c ∧ c ≤ 'f' then some (c.toNat - 87)
  else if 'A' ≤ c ∧ c ≤ 'F' then some (c.toNat - 55)
  else none

/-- Digit loop of `strtol`: accumulates base-16 digits until the first byte
that is not one. -/
def strtol_digits : List Char → Nat → Nat
  | [], acc => acc
  | c :: rest, acc =>
    match hexval c with
    | some d => strtol_digits rest (16 * acc + d)
    | none => acc

/-- Base 16 accepts an optional `0x`/`0X` in front of the digits. -/
def strtol_skip_0x : List Char → List Char
  | '0' :: 'x' :: rest => rest
  | '0' :: 'X' :: rest => rest
  | s => s

/-- Library function `strtol(s, NULL, 16)`: leading white space, an optional sign, an optional
`0x`, then the longest run of base-16 digits; 0 when there is no digit; a
value outside `long` is replaced by `LONG_MAX` or `LONG_MIN`. -/
def strtol16 (s : List Char) : Int :=
  let s1 := s.dropWhile isspace
  match s1 with
  | '-' :: rest =>
    max LONG_MIN (0 - (strtol_digits (strtol_skip_0x rest) 0 : Int))
  | '+' :: rest =>
    min LONG_MAX (strtol_digits (strtol_skip_0x rest) 0 : Int)
  | _ =>
    min LONG_MAX (strtol_digits (strtol_skip_0x s1) 0 : Int)

/-- Conversion `(unsigned int)x` of a `long`: reduction modulo 2^32. -/
def to_uint (x : Int) : Nat := (x % (UINT_MOD : Int)).toNat

/-- One base-16 digit in upper case, as `%X` prints it. -/
def hex_char (d : Nat) : Char :=
  if d < 10 then Char.ofNat (48 + d) else Char.ofNat (55 + d)

/-- Digits of `%X`: most significant first, no leading zero, at least one
digit.  The fuel is the number of digits still allowed; an `unsigned int`
has at most 8. -/
def hex_digits : Nat → Nat → List Char → List Char
  | 0, _, acc => acc
  | fuel + 1, v, acc =>
    if v < 16 then hex_char v :: acc
    else hex_digits fuel (v / 16) (hex_char (v % 16) :: acc)

/-- Text produced by `sprintf(buf, "%02X", v)` for an `unsigned int` `v`:
the upper-case base-16 digits, padded with `0` on the left to 2 characters. -/
def sprintf_02X (v : Nat) : List Char :=
  let ds := hex_digits 8 (v % UINT_MOD) []
  List.replicate (2 - ds.length) '0' ++ ds

/-- Delimiters of the data region, the second argument `" \t\n"` of both
`strtok` calls (lines 130 and 138). -/
def strtok_delim (c : Char) : Bool :=
  c = ' ' || c = '\t' || c = '\n'

/-- One call of `strtok` with the delimiters `" \t\n"`, on the text at the
saved position: skips delimiters; `none` (NULL) when nothing is left;
otherwise the token is the run of bytes up to the next delimiter, and the
saved position moves past that delimiter. -/
def strtok (s : List Char) : Option (List Char × List Char) :=
  match s.dropWhile strtok_delim with
  | [] => none
  | c :: r =>
    some ((c :: r).takeWhile (fun x => !strtok_delim x),
          ((c :: r).dropWhile (fun x => !strtok_delim x)).drop 1)

/-! ## `to_upper` (lines 294-300) -/

/-- Lines 296-298: a byte between `a` and `z` is replaced by the byte 32
below it, any other byte is kept. -/
def to_upper_char (c : Char) : Char :=
  if 'a' ≤ c ∧ c ≤ 'z' then Char.ofNat (c.toNat - 32) else c

/-- Function `to_upper`: every byte of the string, in place. -/
def to_upper (str : List Char) : List Char := str.map to_upper_char

/-! ## Identifier (lines 121-127) -/

/-- Lines 122-126: the token in upper case, without its last byte when
that byte is `X`. -/
def id_ptr_of (id_str_raw : List Char) : List Char :=
  let up := to_upper id_str_raw
  if 0 < up.length ∧ up.getLast? = some 'X' then up.dropLast else up

/-- Line 127: `id_int_val = (unsigned int)strtol(id_ptr, NULL, 16)`. -/
def id_int_val_of (id_ptr : List Char) : Nat := to_uint (strtol16 id_ptr)

/-! ## Data bytes (lines 129-144) -/

/-- The two arrays filled by the data loop.  Both are written at index
`data_idx` only, which then grows by one, so the filled part of each array
is a list and `data_idx` is its length. -/
structure DataState where
  /-- Filled part of `unsigned int data_int_list[MAX_DATA_COUNT]`. -/
  data_int_list : List Nat
  /-- Filled part of `char data_hex_list_formatted[MAX_DATA_COUNT][3]`. -/
  data_hex_list_formatted : List (List Char)
deriving DecidableEq

/-- Variable `data_idx`. -/
def DataState.data_idx (st : DataState) : Nat := st.data_int_list.length

/-- Lines 134-136: store the value and its `%02X` text at `data_idx`, then
`data_idx++`.  The text is the one `sprintf` produces; the row it is written
to holds 3 bytes, and `fields_fit` says whether the text stays inside. -/
def DataState.store (st : DataState) (v : Nat) : DataState :=
  { data_int_list := st.data_int_list ++ [v],
    data_hex_list_formatted := st.data_hex_list_formatted ++ [sprintf_02X v] }

/-- Lines 132-139, the `while` loop.  The second argument is the result of
the last `strtok` call (`data_token` and the saved position).  The first
argument bounds the number of iterations; every `strtok` call consumes at
least one byte, so the length of the region plus one is never reached. -/
def data_loop : Nat → Option (List Char × List Char) → DataState → DataState
  | 0, _, st => st
  | _ + 1, none, st => st
  | fuel + 1, some (data_token, saved), st =>
    if st.data_idx < MAX_DATA_COUNT then
      if data_token.length = 2 then
        data_loop fuel (strtok saved) (st.store (to_uint (strtol16 data_token)))
      else
        data_loop fuel (strtok saved) st
    else st

/-- Lines 141-144, the `for` loop: the remaining positions get the value 0
and the text `00`. -/
def data_pad (st : DataState) : DataState :=
  { data_int_list :=
      st.data_int_list ++ List.replicate (MAX_DATA_COUNT - st.data_idx) 0,
    data_hex_list_formatted :=
      st.data_hex_list_formatted
        ++ List.replicate (MAX_DATA_COUNT - st.data_idx) ['0', '0'] }

/-- State after the `while` loop of lines 130-139 on the data region. -/
def data_scan (data_start_ptr : List Char) : DataState :=
  data_loop (data_start_ptr.length + 1) (strtok data_start_ptr) ⟨[], []⟩

/-- Lines 130-144: the data of the region that starts at `data_start_ptr`. -/
def data_extract (data_start_ptr : List Char) : DataState :=
  data_pad (data_scan data_start_ptr)

/-! ## Classification columns (lines 146-209) -/

/-- Lines 153-160, `phy_col`. -/
def phy_col (id_int_val : Nat) (id_ptr : List Char) : List Char :=
  if id_int_val = 0x7DF ∨ strncmp id_ptr ['1', '8', 'D', 'B'] 4 = 0 then ['0']
  else if id_int_val ≥ 0x7E0 ∧ id_int_val ≤ 0x7E7 then ['-', '1']
  else ['1']

/-- Lines 162-167, `dir_col`. -/
def dir_col (id_int_val : Nat) (id_ptr : List Char) : List Char :=
  if strncmp id_ptr ['1', '8', 'D', 'A', 'F', '1'] 6 = 0
      ∨ (id_int_val ≥ 0x7E8 ∧ id_int_val ≤ 0x7EF) then ['R', 'e', 's']
  else ['R', 'e', 'q']

/-- Lines 173-174 and 176-177, `strncpy(dst, src, n); dst[n] = 0`: the
first `n` bytes of `src`. -/
def strncpy (src : List Char) (n : Nat) : List Char := src.take n

/-- Lines 169-185, `ta_col`. -/
def ta_col (id_ptr : List Char) : List Char :=
  let id_len := id_ptr.length
  if id_len = 8 ∧ strncmp id_ptr ['1', '8'] 2 = 0 then
    if id_ptr.get? 4 = some 'F' ∧ id_ptr.get? 5 = some '1' then
      strncpy (id_ptr.drop 6) 2
    else if id_ptr.get? 6 = some 'F' ∧ id_ptr.get? 7 = some '1' then
      strncpy (id_ptr.drop 4) 2
    else []
  else if id_len = 3 then id_ptr
  else []

/-- Element `i` of the `unsigned int` array whose elements are `l`.  The
arrays of a decoded line have 8 elements (`data_extract_lengths`), so the
indices 0, 1 and 2 the decoder reads are always inside `l`. -/
def arr_get (l : List Nat) (i : Nat) : Nat := l.getD i 0

/-- Lines 187-200, `pci_col`. -/
def pci_col (data_int_list : List Nat) : List Char :=
  let data1_upper_4bits := (arr_get data_int_list 0 >>> 4) &&& 0xF
  if data1_upper_4bits = 0 then ['S', 'F']
  else if data1_upper_4bits = 1 then ['F', 'F']
  else if data1_upper_4bits = 2 then ['C', 'F']
  else if data1_upper_4bits = 3 then ['F', 'C']
  else []

/-- Lines 202-209, the text written to `sid_col`.  The array holds 3 bytes;
`fields_fit` says whether the text stays inside. -/
def sid_col (pci_col : List Char) (data_int_list : List Nat) : List Char :=
  if strcmp pci_col ['S', 'F'] = 0 ∧ MAX_DATA_COUNT ≥ 2 then
    sprintf_02X (arr_get data_int_list 1)
  else if strcmp pci_col ['F', 'F'] = 0 ∧ MAX_DATA_COUNT ≥ 3 then
    sprintf_02X (arr_get data_int_list 2)
  else []

/-- Everything lines 121-209 compute for one accepted line. -/
structure Fields where
  /-- Text `id_ptr`, the ID column. -/
  id_ptr : List Char
  /-- Value `id_int_val`. -/
  id_int_val : Nat
  /-- Array `data_int_list`. -/
  data_int_list : List Nat
  /-- Array `data_hex_list_formatted`, the columns Data1..Data8. -/
  data_hex_list_formatted : List (List Char)
  /-- Column Phy. -/
  phy_col : List Char
  /-- Column Dir. -/
  dir_col : List Char
  /-- Column TA. -/
  ta_col : List Char
  /-- Column PCI. -/
  pci_col : List Char
  /-- Column SID. -/
  sid_col : List Char
deriving DecidableEq

/-- Lines 121-209 for a line whose `sscanf` gave the identifier token
`id_str_raw` and whose data region starts at `data_start_ptr`: the text or
value that each statement produces.  Whether every text stays inside the
array it is written to is `no_overrun`. -/
def decode_fields (id_str_raw data_start_ptr : List Char) : Fields :=
  let id_ptr := id_ptr_of id_str_raw
  let id_int_val := id_int_val_of id_ptr
  let d := data_extract data_start_ptr
  let pci := pci_col d.data_int_list
  { id_ptr := id_ptr,
    id_int_val := id_int_val,
    data_int_list := d.data_int_list,
    data_hex_list_formatted := d.data_hex_list_formatted,
    phy_col := phy_col id_int_val id_ptr,
    dir_col := dir_col id_int_val id_ptr,
    ta_col := ta_col id_ptr,
    pci_col := pci,
    sid_col := sid_col pci d.data_int_list }

/-! ## The Data Byte Extractor as the specification words it (section 4.3) -/

/-- Specification side: "split on whitespace into tokens", the separators
being those of the source (space, tab, newline); empty pieces are no
tokens. -/
def spec_tokens (region : List Char) : List (List Char) :=
  (region.splitOnP strtok_delim).filter (fun t => !t.isEmpty)

/-- Specification side: the tokens that take a slot, "if its length is
exactly 2 characters ... up to a maximum of 8 bytes". -/
def spec_accepted (region : List Char) : List (List Char) :=
  ((spec_tokens region).filter (fun t => t.length = 2)).take 8

/-- Specification side: the accepted values, then zero bytes "until it
reaches exactly 8 elements". -/
def spec_data (value : List Char → Nat) (region : List Char) : List Nat :=
  (spec_accepted region).map value
    ++ List.replicate (8 - (spec_accepted region).length) 0

/-- Positional base-16 value of a token of two digits. -/
def hex_pair_value (c1 c2 : Char) : Option Nat :=
  match hexval c1, hexval c2 with
  | some d1, some d2 => some (16 * d1 + d2)
  | _, _ => none

/-- Value the data loop stores for an accepted token (line 134). -/
def token_value (data_token : List Char) : Nat := to_uint (strtol16 data_token)

/-- State of the two arrays after the tokens `ts` were stored in order. -/
def store_tokens (st : DataState) (ts : List (List Char)) : DataState :=
  ts.foldl (fun acc t => acc.store (token_value t)) st

/-! ## Identifier value as the specification words it (section 4.2) -/

/-- Specification side: "parse the remaining characters as base-16", the
positional value of a text of digits, most significant digit first. -/
def spec_hex_value (s : List Char) : Nat :=
  Nat.ofDigits 16 ((s.map (fun c => (hexval c).getD 0)).reverse)

/-! ## `get_output_filename` (lines 275-291) -/

/-- Library function `strrchr(s, c)` for a byte `c` other than 0: the
offset of the last occurrence of `c` in `s`, `none` for NULL. -/
def strrchr : List Char → Char → Option Nat
  | [], _ => none
  | x :: r, c =>
    match strrchr r c with
    | some i => some (i + 1)
    | none => if x = c then some 0 else none

/-- Function `get_output_filename`, with the allocation of line 281
succeeding: the first `base_len` bytes of the input path, then `.csv`. -/
def get_output_filename (input_filename : List Char) : List Char :=
  let base_len :=
    match strrchr input_filename '.' with
    | some dot_pos => dot_pos
    | none => input_filename.length
  strncpy input_filename base_len ++ ['.', 'c', 's', 'v']

/-- Specification side: the output path as the usage text (lines 268-269)
and the specification describe it: the directory part, up to and including the
last `/`, is kept; in the file name the part from its last `.` is replaced
by `.csv`, and `.csv` is appended when the file name has no `.`. -/
def spec_output_filename (path : List Char) : List Char :=
  let dir_len :=
    match strrchr path '/' with
    | some i => i + 1
    | none => 0
  let dir := path.take dir_len
  let file := path.drop dir_len
  let stem :=
    match strrchr file '.' with
    | some i => file.take i
    | none => file
  dir ++ stem ++ ['.', 'c', 's', 'v']

/-! ## Constants and library functions of the line loop (lines 74-251) -/

/-- Line 9: `#define MAX_LINE_LENGTH 256`. -/
def MAX_LINE_LENGTH : Nat := 256

/-- Line 11: `#define LINES_PER_WRITE 30`. -/
def LINES_PER_WRITE : Nat := 30

/-- Line 14: the header row. -/
def HEADER : List Char :=
  "time,ID,Phy,Dir,TA,PCI,SID,Data1,Data2,Data3,Data4,Data5,Data6,Data7,Data8\n".toList

/-- Line 94: the text `" Rx   d "` searched by `strstr`. -/
def MARKER : List Char := [' ', 'R', 'x', ' ', ' ', ' ', 'd', ' ']

/-- Library function `strstr(haystack, needle)`: the text from the first
occurrence of `needle` on, `none` for NULL. -/
def strstr : List Char → List Char → Option (List Char)
  | [], needle => if needle = [] then some [] else none
  | c :: r, needle => if needle <+: c :: r then some (c :: r) else strstr r needle

/-- Library function `strchr(s, c)` for a byte `c` other than 0: the text
from the first occurrence of `c` on, `none` for NULL. -/
def strchr : List Char → Char → Option (List Char)
  | [], _ => none
  | x :: r, c => if x = c then some (x :: r) else strchr r c

/-- Library function `isdigit`. -/
def isdigit (c : Char) : Bool := decide ('0' ≤ c ∧ c ≤ '9')

/-- Library function `isxdigit`. -/
def isxdigit (c : Char) : Bool := (hexval c).isSome

/-- Library function `tolower` on one byte. -/
def to_lower_char (c : Char) : Char :=
  if 'A' ≤ c ∧ c ≤ 'Z' then Char.ofNat (c.toNat + 32) else c

/-- The text begins with `pat` (given in lower case), letter case ignored. -/
def begins_nocase (pat s : List Char) : Bool :=
  (s.take pat.length).map to_lower_char = pat

/-! ## Conversions of `sscanf` (line 114)

Every conversion first skips white space and then takes an input item; it
gives the item and the input left after it, `none` on failure.  The items
of `%d` and `%s` are the longest run of input of the expected form.  The
item of `%lf` is what the GNU C library, which the program is run with,
reads for it: that library collects the bytes that can go on a number and
converts the collected text afterwards, so that it differs from the text of
ISO C in three places, each written out at the function concerned.  The
number a numeric item stands for is not computed: `temp_num` and the
channel are never used, and the time is carried as its item. -/

/-- Run of decimal digits at the start of `s`, and the input after it. -/
def scan_digits (s : List Char) : List Char × List Char :=
  (s.takeWhile isdigit, s.dropWhile isdigit)

/-- Conversions `%d` and `%*d`: an optional sign, then at least one
decimal digit. -/
def scan_d (s : List Char) : Option (List Char × List Char) :=
  match s.dropWhile isspace with
  | '-' :: r =>
    if (scan_digits r).1 = [] then none
    else some ('-' :: (scan_digits r).1, (scan_digits r).2)
  | '+' :: r =>
    if (scan_digits r).1 = [] then none
    else some ('+' :: (scan_digits r).1, (scan_digits r).2)
  | r =>
    if (scan_digits r).1 = [] then none
    else some ((scan_digits r).1, (scan_digits r).2)

/-- Conversion `%s`: at least one byte, up to the next white space. -/
def scan_s (s : List Char) : Option (List Char × List Char) :=
  match s.dropWhile isspace with
  | [] => none
  | c :: r =>
    some ((c :: r).takeWhile (fun x => !isspace x),
          (c :: r).dropWhile (fun x => !isspace x))

/-- Exponent part of a number, read only after a digit of the mantissa:
nothing when the input does not go on with the exponent letter `e`;
otherwise the letter, an optional sign and the decimal digits that follow.
The library collects the letter and the sign also when no digit follows
them (`1e`, `1e+`). -/
def scan_exponent (e : Char) (s : List Char) : List Char × List Char :=
  match s with
  | [] => ([], [])
  | c :: r =>
    if to_lower_char c = e then
      match r with
      | '-' :: r1 => (c :: '-' :: (scan_digits r1).1, (scan_digits r1).2)
      | '+' :: r1 => (c :: '+' :: (scan_digits r1).1, (scan_digits r1).2)
      | _ => (c :: (scan_digits r).1, (scan_digits r).2)
    else ([], c :: r)

/-- Mantissa and exponent of a number as the library collects them: digits
accepted by `dig` with at most one `.` among them, then, when a digit was
among them, the exponent part with letter `e`.  Without any digit the
collected text is empty or the `.` alone. -/
def scan_mantissa (dig : Char → Bool) (e : Char) (s : List Char) : List Char × List Char :=
  let ip := s.takeWhile dig
  let r1 := s.dropWhile dig
  match r1 with
  | '.' :: r2 =>
    let fp := r2.takeWhile dig
    if ip = [] ∧ fp = [] then (['.'], r2)
    else (ip ++ '.' :: fp ++ (scan_exponent e (r2.dropWhile dig)).1,
          (scan_exponent e (r2.dropWhile dig)).2)
  | _ =>
    if ip = [] then ([], r1)
    else (ip ++ (scan_exponent e r1).1, (scan_exponent e r1).2)

/-- Number without its sign, as the library reads it for `%lf`, letter case
ignored.  A first byte `n` must begin `nan`, and the item is these three
bytes (a bracketed part after them is not read).  A first byte `i` must
begin `inf`, and when an `i` follows, `infinity`.  After `0x` the bytes of a
base-16 number are collected and the conversion fails only when there are
none (`0x.` is accepted).  Otherwise the bytes of a decimal number are
collected and the conversion fails when the collected text begins no
number, that is, when it is empty or the `.` alone. -/
def scan_unsigned_number (s : List Char) : Option (List Char × List Char) :=
  match s with
  | [] => none
  | c :: r =>
    if to_lower_char c = 'n' then
      if begins_nocase ['n', 'a', 'n'] (c :: r) then some ((c :: r).take 3, (c :: r).drop 3)
      else none
    else if to_lower_char c = 'i' then
      if begins_nocase ['i', 'n', 'f'] (c :: r) then
        if begins_nocase ['i', 'n', 'f', 'i'] (c :: r) then
          if begins_nocase ['i', 'n', 'f', 'i', 'n', 'i', 't', 'y'] (c :: r) then
            some ((c :: r).take 8, (c :: r).drop 8)
          else none
        else some ((c :: r).take 3, (c :: r).drop 3)
      else none
    else if begins_nocase ['0', 'x'] (c :: r) then
      if (scan_mantissa isxdigit 'p' (r.drop 1)).1 = [] then none
      else some ((c :: r).take 2 ++ (scan_mantissa isxdigit 'p' (r.drop 1)).1,
                 (scan_mantissa isxdigit 'p' (r.drop 1)).2)
    else
      if (scan_mantissa isdigit 'e' (c :: r)).1 = []
          ∨ (scan_mantissa isdigit 'e' (c :: r)).1 = ['.'] then none
      else some (scan_mantissa isdigit 'e' (c :: r))

/-- Conversion `%lf`: an optional sign, then a number. -/
def scan_lf (s : List Char) : Option (List Char × List Char) :=
  match s.dropWhile isspace with
  | '-' :: r =>
    match scan_unsigned_number r with
    | none => none
    | some (m, rest) => some ('-' :: m, rest)
  | '+' :: r =>
    match scan_unsigned_number r with
    | none => none
    | some (m, rest) => some ('+' :: m, rest)
  | r => scan_unsigned_number r

/-- What `sscanf` stored when it returned 5. -/
structure Scanned where
  /-- Input item of `%lf`, which `time_value` is read from. -/
  time_item : List Char
  /-- Buffer `id_str_raw`. -/
  id_str_raw : List Char
  /-- Buffer `temp_rx`. -/
  temp_rx : List Char
  /-- Buffer `temp_d`. -/
  temp_d : List Char
  /-- Input item of `%d`, which `temp_num` is read from. -/
  temp_num_item : List Char
deriving DecidableEq

/-- Lines 114-115, `sscanf(line, "%lf %*d %s %s %s %d", ...)`: the five
stored items when `scanned_items` is 5, `none` when it is less.  The items
of `%s` are as long as the input makes them; whether they stay inside
`id_str_raw`, `temp_rx` and `temp_d` is `sscanf_fit`. -/
def sscanf_line (line : List Char) : Option Scanned :=
  match scan_lf line with
  | none => none
  | some (time_item, r1) =>
    match scan_d r1 with
    | none => none
    | some (_, r2) =>
      match scan_s r2 with
      | none => none
      | some (id_str_raw, r3) =>
        match scan_s r3 with
        | none => none
        | some (temp_rx, r4) =>
          match scan_s r4 with
          | none => none
          | some (temp_d, r5) =>
            match scan_d r5 with
            | none => none
            | some (temp_num_item, _) =>
              some ⟨time_item, id_str_raw, temp_rx, temp_d, temp_num_item⟩

/-! ## One line of the loop (lines 78-221) -/

/-- Lines 94-106: start of the data region in `line_copy`, `none` where
the loop takes `continue`. -/
def locate_data (line_copy : List Char) : Option (List Char) :=
  match strstr line_copy MARKER with
  | none => none
  | some data_start_ptr =>
    match strchr (data_start_ptr.drop MARKER.length) ' ' with
    | none => none
    | some next_space_after_d => some (next_space_after_d.drop 1)

/-- What one accepted line gives: the time, as the item it is read from,
and the fields of lines 121-209. -/
structure Decoded where
  /-- Input item of `time_value`. -/
  time_item : List Char
  /-- Fields of the record. -/
  fields : Fields
deriving DecidableEq

/-- Lines 89-209 for one `line` read by `fgets`, each text as the calls
produce it: `none` where the loop takes `continue`.  The sizes of the
arrays are taken into account by `run_line`. -/
def decode_line (line : List Char) : Option Decoded :=
  let line_copy := strncpy line (MAX_LINE_LENGTH - 1)
  match locate_data line_copy with
  | none => none
  | some data_start_ptr =>
    match sscanf_line line with
    | none => none
    | some sc =>
      if strcmp sc.temp_rx ['R', 'x'] ≠ 0 ∨ strcmp sc.temp_d ['d'] ≠ 0 then none
      else some ⟨sc.time_item, decode_fields sc.id_str_raw data_start_ptr⟩

/-! ## Record Serializer and output (lines 211-251)

Floating point is outside the embedding.  The text that `%.6f` prints for
`time_value` depends on the input item of `%lf` only; it is the parameter
`fmt_6f`, applied to that item. -/

/-- The 15 arguments of the format of line 214, in order. -/
def row_fields (time_text : List Char) (f : Fields) : List (List Char) :=
  [time_text, f.id_ptr, f.phy_col, f.dir_col, f.ta_col, f.pci_col, f.sid_col,
    f.data_hex_list_formatted.getD 0 [], f.data_hex_list_formatted.getD 1 [],
    f.data_hex_list_formatted.getD 2 [], f.data_hex_list_formatted.getD 3 [],
    f.data_hex_list_formatted.getD 4 [], f.data_hex_list_formatted.getD 5 [],
    f.data_hex_list_formatted.getD 6 [], f.data_hex_list_formatted.getD 7 []]

/-- Lines 213-221, `snprintf` into `current_line_output`: the 15 fields
with commas between them and a newline, cut to the 511 bytes the buffer
holds before its NUL. -/
def snprintf_row (time_text : List Char) (f : Fields) : List Char :=
  ((List.intercalate [','] (row_fields time_text f)) ++ ['\n']).take (MAX_LINE_LENGTH * 2 - 1)

/-- Row of one line, `none` for a line that gives no record. -/
def row_of_line (fmt_6f : List Char → List Char) (line : List Char) : Option (List Char) :=
  match decode_line line with
  | none => none
  | some d => some (snprintf_row (fmt_6f d.time_item) d.fields)

/-- The write buffer and the output file. -/
structure WriterState where
  /-- Rows held in `parsed_data_buffer`; `buffer_count` is their number. -/
  parsed_data_buffer : List (List Char)
  /-- Text written to `outfile` so far. -/
  outfile : List Char
deriving DecidableEq

/-- Lines 237-241 and 247-250: write the buffered rows, empty the buffer. -/
def flush_buffer (st : WriterState) : WriterState :=
  { parsed_data_buffer := [],
    outfile := st.outfile ++ st.parsed_data_buffer.flatten }

/-- One iteration of the loop of line 78, with the allocation of line 224
succeeding. -/
def loop_step (fmt_6f : List Char → List Char) (st : WriterState) (line : List Char) :
    WriterState :=
  match row_of_line fmt_6f line with
  | none => st
  | some current_line_output =>
    if (st.parsed_data_buffer ++ [current_line_output]).length = LINES_PER_WRITE then
      flush_buffer { st with
        parsed_data_buffer := st.parsed_data_buffer ++ [current_line_output] }
    else
      { st with parsed_data_buffer := st.parsed_data_buffer ++ [current_line_output] }

/-- Lines 74-251: the text of the output file for the lines that `fgets`
returns, in order. -/
def main_output (fmt_6f : List Char → List Char) (lines : List (List Char)) : List Char :=
  let st := lines.foldl (loop_step fmt_6f) ⟨[], HEADER⟩
  (if st.parsed_data_buffer.length > 0 then flush_buffer st else st).outfile

/-- Specification side: one line under direct writes, its row is written
as soon as it is formatted. -/
def spec_direct_step (fmt_6f : List Char → List Char) (out : List Char) (line : List Char) :
    List Char :=
  match row_of_line fmt_6f line with
  | none => out
  | some row => out ++ row

/-- Specification side: the output under direct writes, the header first. -/
def spec_direct_output (fmt_6f : List Char → List Char) (lines : List (List Char)) :
    List Char :=
  lines.foldl (spec_direct_step fmt_6f) HEADER

/-- Specification side: the white-space delimited tokens of a line. -/
def spec_ws_tokens (line : List Char) : List (List Char) :=
  (line.splitOnP isspace).filter (fun t => !t.isEmpty)

/-- Specification side: a decimal integer, an optional sign and digits. -/
def is_integer_text (t : List Char) : Bool :=
  match t with
  | '-' :: r => !r.isEmpty && r.all isdigit
  | '+' :: r => !r.isEmpty && r.all isdigit
  | r => !r.isEmpty && r.all isdigit

/-- Specification side: a line in the form of the trace format, single
spaces between the fields, the marker after the identifier, the byte count
right after the marker and one space before the data region. -/
def standard_line (ts ch id cnt region : List Char) : List Char :=
  ts ++ ' ' :: (ch ++ ' ' :: (id ++ (MARKER ++ (cnt ++ ' ' :: region))))

/-- The texts of a record stay inside the arrays they are written to: the
rows of `data_hex_list_formatted` (3 bytes each, line 110), `phy_col` and
`dir_col` (4 bytes), `ta_col` (9 bytes), `pci_col` and `sid_col` (3 bytes
each, lines 147-151). -/
def fields_fit (f : Fields) : Prop :=
  (∀ t ∈ f.data_hex_list_formatted, fits 3 t) ∧ fits 4 f.phy_col ∧ fits 4 f.dir_col
    ∧ fits 9 f.ta_col ∧ fits 3 f.pci_col ∧ fits 3 f.sid_col

instance (f : Fields) : Decidable (fields_fit f) := by
  unfold fields_fit; infer_instance

/-- No write of lines 121-209 goes past its array, for a line whose
identifier token is `id_str_raw` and whose data region starts at
`data_start_ptr`: the token fits `id_str_raw` (32 bytes, line 82) and the
texts of the record fit their arrays. -/
def no_overrun (id_str_raw data_start_ptr : List Char) : Prop :=
  fits 32 id_str_raw ∧ fields_fit (decode_fields id_str_raw data_start_ptr)

instance (id_str_raw data_start_ptr : List Char) :
    Decidable (no_overrun id_str_raw data_start_ptr) := by
  unfold no_overrun; infer_instance

/-- The `%s` items that the call of `sscanf` (line 114) stores stay inside
`id_str_raw` (32 bytes), `temp_rx` (4 bytes) and `temp_d` (2 bytes).  An
item is stored as soon as its conversion succeeds, also when a later
conversion fails. -/
def sscanf_fit (line : List Char) : Bool :=
  match scan_lf line with
  | none => true
  | some (_, r1) =>
    match scan_d r1 with
    | none => true
    | some (_, r2) =>
      match scan_s r2 with
      | none => true
      | some (id_str_raw, r3) =>
        decide (fits 32 id_str_raw) &&
        match scan_s r3 with
        | none => true
        | some (temp_rx, r4) =>
          decide (fits 4 temp_rx) &&
          match scan_s r4 with
          | none => true
          | some (temp_d, _) => decide (fits 2 temp_d)

/-- What one iteration of the loop of line 78 does with a line. -/
inductive Outcome where
  /-- The loop takes `continue`: no row for the line. -/
  | skipped : Outcome
  /-- Every write stayed inside its array; the line gives this record. -/
  | record (d : Decoded) : Outcome
  /-- Some write went past the end of its array. -/
  | overrun : Outcome
deriving DecidableEq

/-- Lines 89-209 for one `line` read by `fgets`, with the sizes of the
arrays taken into account. -/
def run_line (line : List Char) : Outcome :=
  let line_copy := strncpy line (MAX_LINE_LENGTH - 1)
  match locate_data line_copy with
  | none => Outcome.skipped
  | some data_start_ptr =>
    if sscanf_fit line = false then Outcome.overrun
    else
      match sscanf_line line with
      | none => Outcome.skipped
      | some sc =>
        if strcmp sc.temp_rx ['R', 'x'] ≠ 0 ∨ strcmp sc.temp_d ['d'] ≠ 0 then Outcome.skipped
        else if fields_fit (decode_fields sc.id_str_raw data_start_ptr) then
          Outcome.record ⟨sc.time_item, decode_fields sc.id_str_raw data_start_ptr⟩
        else Outcome.overrun

/-! ## A number as the specification words it (section 4.1) -/

theorem char_toNat_sub_ne_zero (c1 c2 : Char) (h : c1 ≠ c2) :
    (c1.toNat : Int) - (c2.toNat : Int) ≠ 0 := by
  intro h0
  apply h
  apply Char.ext
  apply UInt32.ext
  have : c1.toNat = c2.toNat := by omega
  simpa [Char.toNat, UInt32.toNat] using this

/-- On a pattern without the byte 0, `strncmp` over the pattern's length
is 0 exactly when the string begins with the pattern. -/
theorem strncmp_eq_zero_iff (p : List Char) (hp : ∀ c ∈ p, c.toNat ≠ 0) (s : List Char) :
    strncmp s p p.length = 0 ↔ p <+: s := by
  induction p generalizing s with
  | nil => simp [strncmp]
  | cons c2 r2 ih =>
    have hc2 : c2.toNat ≠ 0 := hp c2 (List.mem_cons_self _ _)
    have hr2 : ∀ c ∈ r2, c.toNat ≠ 0 := fun c hc => hp c (List.mem_cons_of_mem _ hc)
    cases s with
    | nil =>
      simp only [List.length_cons, strncmp]
      constructor
      · intro h; omega
      · intro h; simp at h
    | cons c1 r1 =>
      simp only [List.length_cons, strncmp]
      by_cases h : c1 = c2
      · subst h
        simp [ih hr2 r1, List.cons_prefix_cons]
      · simp only [h, if_false]
        constructor
        · intro h0; exact absurd h0 (char_toNat_sub_ne_zero c1 c2 h)
        · intro hpre
          rw [List.cons_prefix_cons] at hpre
          exact absurd hpre.1.symm h

/-- The digit bound of `hex_digits` is not reached by a value below
`16 ^ fuel`: more fuel gives the same digits. -/
theorem hex_digits_fuel (fuel : Nat) (v : Nat) (acc : List Char) (h : v < 16 ^ (fuel + 1)) :
    hex_digits (fuel + 1) v acc = hex_digits (fuel + 2) v acc := by
  induction fuel generalizing v acc with
  | zero =>
    have hv : v < 16 := by simpa using h
    simp [hex_digits, hv]
  | succ n ih =>
    by_cases hv : v < 16
    · simp [hex_digits, hv]
    · have hdiv : v / 16 < 16 ^ (n + 1) := by
        rw [Nat.div_lt_iff_lt_mul (by decide)]
        calc v < 16 ^ (n + 1 + 1) := h
          _ = 16 ^ (n + 1) * 16 := by rw [pow_succ]
      have := ih (v / 16) (hex_char (v % 16) :: acc) hdiv
      rw [hex_digits, if_neg hv, this]
      conv_rhs => rw [hex_digits, if_neg hv]

/-- Text of a byte: two digits. -/
theorem sprintf_02X_byte (v : Nat) (h : v < 256) :
    sprintf_02X v = [hex_char (v / 16), hex_char (v % 16)] := by
  have hmod : v % UINT_MOD = v := Nat.mod_eq_of_lt (by unfold UINT_MOD; omega)
  unfold sprintf_02X
  rw [hmod]
  by_cases hv : v < 16
  · have h0 : v / 16 = 0 := Nat.div_eq_of_lt hv
    have h1 : v % 16 = v := Nat.mod_eq_of_lt hv
    simp [hex_digits, hv, h0, h1, hex_char]
  · have hd : v / 16 < 16 := by omega
    simp [hex_digits, hv, hd]

/-! ## Classification columns -/

/-- C1: for every decoded line (any identifier token, any data region) the
Phy column is `0` when `id_int_val = 0x7DF` or `id_ptr` begins with `18DB`;
otherwise `-1` when `0x7E0 ≤ id_int_val ≤ 0x7E7`; otherwise `1`.  The
identifiers 7DF, 7E0 and 7E8 give `0`, `-1` and `1`. -/
theorem phy_col_rule (id_str_raw data_start_ptr : List Char) :
    ((decode_fields id_str_raw data_start_ptr).phy_col =
      if (decode_fields id_str_raw data_start_ptr).id_int_val = 0x7DF
          ∨ "18DB".toList <+: (decode_fields id_str_raw data_start_ptr).id_ptr then "0".toList
      else if 0x7E0 ≤ (decode_fields id_str_raw data_start_ptr).id_int_val
          ∧ (decode_fields id_str_raw data_start_ptr).id_int_val ≤ 0x7E7 then "-1".toList
      else "1".toList)
    ∧ (decode_fields "7DF".toList data_start_ptr).phy_col = "0".toList
    ∧ (decode_fields "7E0".toList data_start_ptr).phy_col = "-1".toList
    ∧ (decode_fields "7E8".toList data_start_ptr).phy_col = "1".toList := by
  refine ⟨?_, by simp only [decode_fields]; decide, by simp only [decode_fields]; decide,
    by simp only [decode_fields]; decide⟩
  have h := strncmp_eq_zero_iff "18DB".toList (by decide) (id_ptr_of id_str_raw)
  simp only [decode_fields, phy_col]
  simp only [show ("18DB".toList).length = 4 from rfl] at h
  simp only [show ['1', '8', 'D', 'B'] = "18DB".toList from rfl, h]
  rfl

/-- C2: for every decoded line the Dir column is `Res` exactly when `id_ptr`
begins with `18DAF1` or `0x7E8 ≤ id_int_val ≤ 0x7EF`, and `Req` in every
other case.  Identifier 7E8 gives `Res`, identifier 7E0 gives `Req`. -/
theorem dir_col_rule (id_str_raw data_start_ptr : List Char) :
    ((decode_fields id_str_raw data_start_ptr).dir_col =
      if "18DAF1".toList <+: (decode_fields id_str_raw data_start_ptr).id_ptr
          ∨ (0x7E8 ≤ (decode_fields id_str_raw data_start_ptr).id_int_val
            ∧ (decode_fields id_str_raw data_start_ptr).id_int_val ≤ 0x7EF) then "Res".toList
      else "Req".toList)
    ∧ (decode_fields "7E8".toList data_start_ptr).dir_col = "Res".toList
    ∧ (decode_fields "7E0".toList data_start_ptr).dir_col = "Req".toList := by
  have h := strncmp_eq_zero_iff "18DAF1".toList (by decide) (id_ptr_of id_str_raw)
  simp only [show ("18DAF1".toList).length = 6 from rfl] at h
  refine ⟨?_, by simp only [decode_fields]; decide, by simp only [decode_fields]; decide⟩
  simp only [decode_fields, dir_col]
  simp only [show ['1', '8', 'D', 'A', 'F', '1'] = "18DAF1".toList from rfl, h]
  rfl

/-- A list of length 8 written out. -/
theorem length_eight (t : List Char) (h : t.length = 8) :
    ∃ a b c d e f g k, t = [a, b, c, d, e, f, g, k] := by
  rcases t with _ | ⟨a, _ | ⟨b, _ | ⟨c, _ | ⟨d, _ | ⟨e, _ | ⟨f, _ | ⟨g, _ | ⟨k, _ | ⟨m, r⟩⟩⟩⟩⟩⟩⟩⟩⟩ <;>
    simp at h
  exact ⟨a, b, c, d, e, f, g, k, rfl⟩

/-- The TA rule in terms of character positions (0-based) of `id_ptr`. -/
theorem ta_col_positions (t : List Char) :
    ta_col t =
      if t.length = 8 ∧ "18".toList <+: t then
        if (t.drop 4).take 2 = "F1".toList then (t.drop 6).take 2
        else if (t.drop 6).take 2 = "F1".toList then (t.drop 4).take 2
        else []
      else if t.length = 3 then t
      else [] := by
  have h := strncmp_eq_zero_iff "18".toList (by decide) t
  simp only [show ("18".toList).length = 2 from rfl] at h
  simp only [ta_col, show ['1', '8'] = "18".toList from rfl, h]
  by_cases h8 : t.length = 8
  · obtain ⟨a, b, c, d, e, f, g, k, rfl⟩ := length_eight t h8
    simp [strncpy]
  · simp [h8]

/-! ## Tokens: `strtok` against the split of the region -/

theorem spec_tokens_nil : spec_tokens [] = [] := by
  simp [spec_tokens]

theorem spec_tokens_cons_delim (c : Char) (r : List Char) (h : strtok_delim c = true) :
    spec_tokens (c :: r) = spec_tokens r := by
  simp [spec_tokens, h]

theorem spec_tokens_dropWhile (s : List Char) :
    spec_tokens (s.dropWhile strtok_delim) = spec_tokens s := by
  induction s with
  | nil => rfl
  | cons c r ih =>
    by_cases h : strtok_delim c = true
    · rw [List.dropWhile_cons_of_pos h, ih, spec_tokens_cons_delim c r h]
    · rw [List.dropWhile_cons_of_neg h]

/-- A region that starts with a byte of a token: the first token is the run
up to the next delimiter, the other tokens are those after that delimiter. -/
theorem spec_tokens_cons_token (c : Char) (r : List Char) (h : strtok_delim c = false) :
    spec_tokens (c :: r) =
      (c :: r).takeWhile (fun x => !strtok_delim x)
        :: spec_tokens (((c :: r).dropWhile (fun x => !strtok_delim x)).drop 1) := by
  have hsplit := List.takeWhile_append_dropWhile (fun x => !strtok_delim x) (c :: r)
  have htok : ∀ x ∈ (c :: r).takeWhile (fun x => !strtok_delim x), ¬ strtok_delim x = true := by
    intro x hx
    have := List.mem_takeWhile_imp hx
    simpa using this
  have hne : ((c :: r).takeWhile (fun x => !strtok_delim x)).isEmpty = false := by
    simp [List.takeWhile_cons, h]
  cases hrest : (c :: r).dropWhile (fun x => !strtok_delim x) with
  | nil =>
    rw [hrest, List.append_nil] at hsplit
    have h1 : (c :: r).splitOnP strtok_delim = [c :: r] := by
      apply List.splitOnP_eq_single
      rw [← hsplit]; exact htok
    rw [hsplit]
    simp [spec_tokens, h1]
  | cons d rest =>
    have hd : strtok_delim d = true := by
      have := List.head_dropWhile_not (fun x => !strtok_delim x) (c :: r) (by rw [hrest]; simp)
      simp only [hrest, List.head_cons] at this
      simpa using this
    rw [hrest] at hsplit
    have h1 : (c :: r).splitOnP strtok_delim =
        (c :: r).takeWhile (fun x => !strtok_delim x) :: rest.splitOnP strtok_delim := by
      conv_lhs => rw [← hsplit]
      exact List.splitOnP_first _ _ htok d hd rest
    simp only [spec_tokens, h1, List.drop_one, List.tail_cons]
    rw [List.filter_cons_of_pos (by simp [hne])]

/-- The tokens of a region are what successive `strtok` calls return. -/
theorem spec_tokens_strtok (s : List Char) :
    spec_tokens s =
      match strtok s with
      | none => []
      | some (t, saved) => t :: spec_tokens saved := by
  rw [← spec_tokens_dropWhile s]
  unfold strtok
  cases hs : s.dropWhile strtok_delim with
  | nil => simp [spec_tokens_nil]
  | cons c r =>
    have hc : strtok_delim c = false := by
      have := List.head_dropWhile_not strtok_delim s (by rw [hs]; simp)
      simp only [hs, List.head_cons] at this
      simpa using this
    simp only
    exact spec_tokens_cons_token c r hc

/-- Every `strtok` call that returns a token moves the saved position forward. -/
theorem strtok_saved_length (s t saved : List Char) (h : strtok s = some (t, saved)) :
    saved.length < s.length := by
  unfold strtok at h
  cases hs : s.dropWhile strtok_delim with
  | nil => simp [hs] at h
  | cons c r =>
    simp only [hs, Option.some.injEq, Prod.mk.injEq] at h
    have h1 : (s.dropWhile strtok_delim).length ≤ s.length :=
      (List.dropWhile_sublist strtok_delim).length_le
    have h2 : ((c :: r).dropWhile (fun x => !strtok_delim x)).length ≤ (c :: r).length :=
      (List.dropWhile_sublist _).length_le
    have hc : strtok_delim c = false := by
      have := List.head_dropWhile_not strtok_delim s (by rw [hs]; simp)
      simp only [hs, List.head_cons] at this
      simpa using this
    have h3 : (c :: r).dropWhile (fun x => !strtok_delim x)
        = r.dropWhile (fun x => !strtok_delim x) := by
      rw [List.dropWhile_cons_of_pos (by simp [hc])]
    have h4 : (r.dropWhile (fun x => !strtok_delim x)).length ≤ r.length :=
      (List.dropWhile_sublist _).length_le
    rw [hs] at h1
    rw [← h.2, h3, List.length_drop]
    simp only [List.length_cons] at h1
    omega

/-! ## The data loop -/

theorem store_tokens_fields (ts : List (List Char)) (st : DataState) :
    (store_tokens st ts).data_int_list = st.data_int_list ++ ts.map token_value
    ∧ (store_tokens st ts).data_hex_list_formatted
        = st.data_hex_list_formatted ++ ts.map (fun t => sprintf_02X (token_value t)) := by
  induction ts generalizing st with
  | nil => simp [store_tokens]
  | cons t r ih =>
    have h := ih (st.store (token_value t))
    simp only [store_tokens, List.foldl_cons] at h ⊢
    rw [h.1, h.2]
    simp [DataState.store]

/-- The `while` loop stores the tokens of length 2, in order, until the
arrays are full; the iteration bound of `data_loop` is not reached. -/
theorem data_loop_tokens (fuel : Nat) (s : List Char) (st : DataState)
    (hfuel : s.length < fuel) :
    data_loop fuel (strtok s) st =
      store_tokens st
        (((spec_tokens s).filter (fun t => t.length = 2)).take (MAX_DATA_COUNT - st.data_idx)) := by
  induction fuel generalizing s st with
  | zero => omega
  | succ fuel ih =>
    rw [spec_tokens_strtok s]
    cases hs : strtok s with
    | none => simp [data_loop, store_tokens]
    | some p =>
      obtain ⟨t, saved⟩ := p
      have hlen := strtok_saved_length s t saved hs
      have hsaved : saved.length < fuel := by omega
      simp only [data_loop]
      by_cases hidx : st.data_idx < MAX_DATA_COUNT
      · simp only [hidx, if_true]
        by_cases ht : t.length = 2
        · simp only [ht, if_true]
          rw [ih saved _ hsaved]
          have hstep : MAX_DATA_COUNT - st.data_idx
              = (MAX_DATA_COUNT - (st.store (to_uint (strtol16 t))).data_idx) + 1 := by
            simp only [DataState.data_idx, DataState.store, List.length_append,
              List.length_singleton] at hidx ⊢
            omega
          rw [List.filter_cons_of_pos (by simp [ht]), hstep, List.take_succ_cons]
          simp [store_tokens, token_value]
        · simp only [ht, if_false]
          rw [ih saved _ hsaved, List.filter_cons_of_neg (by simp [ht])]
      · simp only [hidx, if_false]
        have h0 : MAX_DATA_COUNT - st.data_idx = 0 := by omega
        simp [h0, store_tokens]

/-- State after the `while` loop: the accepted tokens, stored in order. -/
theorem data_scan_eq (region : List Char) :
    data_scan region = store_tokens ⟨[], []⟩ (spec_accepted region) := by
  unfold data_scan
  rw [data_loop_tokens _ region _ (Nat.lt_succ_self _)]
  rfl

theorem spec_accepted_length_le (region : List Char) : (spec_accepted region).length ≤ 8 := by
  simp [spec_accepted, List.length_take]

theorem data_scan_fields (region : List Char) :
    (data_scan region).data_int_list = (spec_accepted region).map token_value
    ∧ (data_scan region).data_hex_list_formatted
        = (spec_accepted region).map (fun t => sprintf_02X (token_value t))
    ∧ (data_scan region).data_idx = (spec_accepted region).length := by
  have h := store_tokens_fields (spec_accepted region) ⟨[], []⟩
  rw [← data_scan_eq] at h
  simp only [List.nil_append] at h
  refine ⟨h.1, h.2, ?_⟩
  simp [DataState.data_idx, h.1]

theorem data_extract_fields (region : List Char) :
    (data_extract region).data_int_list
        = (spec_accepted region).map token_value
          ++ List.replicate (8 - (spec_accepted region).length) 0
    ∧ (data_extract region).data_hex_list_formatted
        = (spec_accepted region).map (fun t => sprintf_02X (token_value t))
          ++ List.replicate (8 - (spec_accepted region).length) "00".toList := by
  obtain ⟨h1, h2, h3⟩ := data_scan_fields region
  simp only [data_extract, data_pad, h1, h2, h3, MAX_DATA_COUNT]
  exact ⟨trivial, rfl⟩

theorem data_extract_lengths (region : List Char) :
    (data_extract region).data_int_list.length = 8
    ∧ (data_extract region).data_hex_list_formatted.length = 8 := by
  obtain ⟨h1, h2⟩ := data_extract_fields region
  have h := spec_accepted_length_le region
  rw [h1, h2]
  simp only [List.length_append, List.length_map, List.length_replicate]
  omega

/-- The text column of every slot is the `%02X` text of its value. -/
theorem data_extract_hex_eq_map (region : List Char) :
    (data_extract region).data_hex_list_formatted
      = (data_extract region).data_int_list.map sprintf_02X := by
  obtain ⟨h1, h2⟩ := data_extract_fields region
  rw [h1, h2]
  simp only [List.map_append, List.map_map, List.map_replicate]
  rfl

/-! ## PCI and SID -/

theorem upper_4bits_eq (v : Nat) : (v >>> 4) &&& 0xF = (v / 16) % 16 := by
  rw [Nat.shiftRight_eq_div_pow]
  exact Nat.and_pow_two_sub_one_eq_mod (v / 2 ^ 4) 4

theorem pci_col_eq (l : List Nat) :
    pci_col l =
      if (arr_get l 0 / 16) % 16 = 0 then "SF".toList
      else if (arr_get l 0 / 16) % 16 = 1 then "FF".toList
      else if (arr_get l 0 / 16) % 16 = 2 then "CF".toList
      else if (arr_get l 0 / 16) % 16 = 3 then "FC".toList
      else [] := by
  simp only [pci_col, upper_4bits_eq]
  rfl

theorem pci_col_cases (l : List Nat) :
    pci_col l = "SF".toList ∨ pci_col l = "FF".toList ∨ pci_col l = "CF".toList
      ∨ pci_col l = "FC".toList ∨ pci_col l = [] := by
  rw [pci_col_eq]
  split
  · exact Or.inl rfl
  · split
    · exact Or.inr (Or.inl rfl)
    · split
      · exact Or.inr (Or.inr (Or.inl rfl))
      · split
        · exact Or.inr (Or.inr (Or.inr (Or.inl rfl)))
        · exact Or.inr (Or.inr (Or.inr (Or.inr rfl)))

theorem sid_col_eq (l : List Nat) :
    sid_col (pci_col l) l =
      if pci_col l = "SF".toList then sprintf_02X (arr_get l 1)
      else if pci_col l = "FF".toList then sprintf_02X (arr_get l 2)
      else [] := by
  rcases pci_col_cases l with h | h | h | h | h <;> rw [h] <;> rfl

/-- The elements 0, 1 and 2 of the data arrays of a decoded line exist, and
each text is the `%02X` text of the value. -/
theorem data_extract_first_three (region : List Char) :
    ∃ d0 d1 d2 rest,
      (data_extract region).data_int_list = d0 :: d1 :: d2 :: rest
      ∧ (data_extract region).data_hex_list_formatted
          = sprintf_02X d0 :: sprintf_02X d1 :: sprintf_02X d2 :: rest.map sprintf_02X := by
  have hl := (data_extract_lengths region).1
  have hm := data_extract_hex_eq_map region
  rcases hd : (data_extract region).data_int_list with _ | ⟨d0, _ | ⟨d1, _ | ⟨d2, rest⟩⟩⟩ <;>
    rw [hd] at hl hm <;> simp at hl
  exact ⟨d0, d1, d2, rest, rfl, by simpa using hm⟩

/-! ## Base-16 value of a token of two digits -/

theorem hexval_some (c : Char) (d : Nat) (h : hexval c = some d) :
    d < 16 ∧ 48 ≤ c.toNat ∧ c.toNat ≤ 102 ∧ c.toNat ≠ 88 := by
  unfold hexval at h
  have e1 : ∀ a b : Char, a ≤ b ↔ a.toNat ≤ b.toNat := fun _ _ => Iff.rfl
  simp only [e1] at h
  have n0 : ('0' : Char).toNat = 48 := rfl
  have n9 : ('9' : Char).toNat = 57 := rfl
  have na : ('a' : Char).toNat = 97 := rfl
  have nf : ('f' : Char).toNat = 102 := rfl
  have nA : ('A' : Char).toNat = 65 := rfl
  have nF : ('F' : Char).toNat = 70 := rfl
  rw [n0, n9, na, nf, nA, nF] at h
  split at h
  · simp only [Option.some.injEq] at h; omega
  · split at h
    · simp only [Option.some.injEq] at h; omega
    · split at h
      · simp only [Option.some.injEq] at h; omega
      · exact absurd h (by simp)

theorem hexval_not_space (c : Char) (d : Nat) (h : hexval c = some d) : isspace c = false := by
  obtain ⟨-, h1, -, -⟩ := hexval_some c d h
  have hne : c ≠ ' ' := by
    intro hc; subst hc; exact absurd h1 (by decide)
  simp only [isspace, hne, decide_False, Bool.false_or, Bool.and_eq_false_imp, decide_eq_true_eq]
  intro h9
  simp only [decide_eq_false_iff_not]
  omega

theorem strtol16_hex_pair (c1 c2 : Char) (d1 d2 : Nat)
    (h1 : hexval c1 = some d1) (h2 : hexval c2 = some d2) :
    to_uint (strtol16 [c1, c2]) = 16 * d1 + d2 := by
  obtain ⟨b1, l1, u1, x1⟩ := hexval_some c1 d1 h1
  obtain ⟨b2, l2, u2, x2⟩ := hexval_some c2 d2 h2
  have hs := hexval_not_space c1 d1 h1
  have hdigits : strtol_digits [c1, c2] 0 = 16 * d1 + d2 := by
    simp [strtol_digits, h1, h2]
  have hpre : strtol_skip_0x [c1, c2] = [c1, c2] := by
    unfold strtol_skip_0x
    split
    · rename_i heq
      simp only [List.cons.injEq] at heq
      have : c2 = 'x' := heq.2.1
      subst this
      exact absurd u2 (by decide)
    · rename_i heq
      simp only [List.cons.injEq] at heq
      have : c2 = 'X' := heq.2.1
      subst this
      exact absurd x2 (by decide)
    · rfl
  have hval : strtol16 [c1, c2] = ((16 * d1 + d2 : Nat) : Int) := by
    unfold strtol16
    simp only [List.dropWhile_cons, hs]
    split
    · rename_i heq
      simp only [Bool.false_eq_true, if_false, List.cons.injEq] at heq
      have : c1 = '-' := heq.1
      subst this
      exact absurd l1 (by decide)
    · rename_i heq
      simp only [Bool.false_eq_true, if_false, List.cons.injEq] at heq
      have : c1 = '+' := heq.1
      subst this
      exact absurd l1 (by decide)
    · simp only [Bool.false_eq_true, if_false, hpre, hdigits, LONG_MAX]
      omega
  rw [hval]
  simp only [to_uint, UINT_MOD]
  omega

/-! ## Data Byte Extractor -/

/-- C7: for every data region (any text) the extractor yields exactly 8
values and 8 texts; the number of accepted tokens is the number of tokens of
length 2, at most 8; every position at or after that number holds the value
0 and the text `00`. -/
theorem data_extract_padding (region : List Char) :
    (data_extract region).data_int_list.length = 8
    ∧ (data_extract region).data_hex_list_formatted.length = 8
    ∧ (data_scan region).data_idx
        = min 8 ((spec_tokens region).filter (fun t => t.length = 2)).length
    ∧ ∀ i, (data_scan region).data_idx ≤ i → i < 8 →
        (data_extract region).data_int_list[i]? = some 0
        ∧ (data_extract region).data_hex_list_formatted[i]? = some "00".toList := by
  obtain ⟨hl1, hl2⟩ := data_extract_lengths region
  obtain ⟨-, -, hidx⟩ := data_scan_fields region
  obtain ⟨h1, h2⟩ := data_extract_fields region
  refine ⟨hl1, hl2, ?_, ?_⟩
  · rw [hidx]
    simp [spec_accepted, List.length_take]
  · intro i hi h8
    rw [hidx] at hi
    rw [h1, h2]
    constructor
    · rw [List.getElem?_append_right (by simpa using hi)]
      rw [List.getElem?_replicate]
      simp only [List.length_map]
      rw [if_pos (by omega)]
    · rw [List.getElem?_append_right (by simpa using hi)]
      rw [List.getElem?_replicate]
      simp only [List.length_map]
      rw [if_pos (by omega)]

/-- C8: for every data region the extracted data is the values of the first
8 tokens of length 2, in their order, followed by zeros up to length 8; the
value of a token of two base-16 digits is its base-16 value; a token of
another length takes no slot (9 tokens of which one has length 1 or 3: the
8 slots are the 8 other tokens in order). -/
theorem data_extract_spec (region : List Char) :
    (data_extract region).data_int_list = spec_data token_value region
    ∧ (∀ c1 c2 v, hex_pair_value c1 c2 = some v → token_value [c1, c2] = v)
    ∧ (data_extract "11 22 33 4 55 66 77 88 99 AA\n".toList).data_int_list
        = [0x11, 0x22, 0x33, 0x55, 0x66, 0x77, 0x88, 0x99]
    ∧ (data_extract "11 22 33 44 55 666 77 88 99\n".toList).data_int_list
        = [0x11, 0x22, 0x33, 0x44, 0x55, 0x77, 0x88, 0x99]
    ∧ (data_extract "11 2 33 444 55\n".toList).data_int_list
        = [0x11, 0x33, 0x55, 0, 0, 0, 0, 0] := by
  refine ⟨?_, ?_, by decide, by decide, by decide⟩
  · rw [(data_extract_fields region).1]
    rfl
  · intro c1 c2 v h
    unfold hex_pair_value at h
    cases h1 : hexval c1 with
    | none => simp [h1] at h
    | some d1 =>
      cases h2 : hexval c2 with
      | none => simp [h1, h2] at h
      | some d2 =>
        simp only [h1, h2, Option.some.injEq] at h
        rw [← h]
        exact strtol16_hex_pair c1 c2 d1 d2 h1 h2

/-- C9, the code at a region that ends in `\r\n`: the delimiters of `strtok`
are space, tab and newline, so the last token is `AA\r`, of length 3, and
takes no slot; slot 8 holds 0 and `00`.  The same region ending in `\n`
gives the eight values. -/
theorem data_extract_crlf :
    spec_tokens "02 10 01 00 00 00 00 AA\r\n".toList
      = ["02".toList, "10".toList, "01".toList, "00".toList, "00".toList, "00".toList,
          "00".toList, "AA\r".toList]
    ∧ (data_extract "02 10 01 00 00 00 00 AA\r\n".toList).data_int_list
        = [2, 16, 1, 0, 0, 0, 0, 0]
    ∧ (data_extract "02 10 01 00 00 00 00 AA\r\n".toList).data_hex_list_formatted
        = ["02".toList, "10".toList, "01".toList, "00".toList, "00".toList, "00".toList,
            "00".toList, "00".toList]
    ∧ (data_extract "02 10 01 00 00 00 00 AA\n".toList).data_int_list
        = [2, 16, 1, 0, 0, 0, 0, 0xAA] := by
  refine ⟨by decide, by decide, by decide, by decide⟩

/-- C10, the code at a region whose first token is `-1`: `strtol` reads the
sign, the value stored is 4294967295, which is no byte, and `%02X` produces
the 8 characters `FFFFFFFF`, which do not fit the 3 bytes of a row of
`data_hex_list_formatted`. -/
theorem data_extract_minus_one :
    token_value "-1".toList = 4294967295
    ∧ (data_extract "-1 00 00 00 00 00 00 00\n".toList).data_int_list
        = [4294967295, 0, 0, 0, 0, 0, 0, 0]
    ∧ (data_extract "-1 00 00 00 00 00 00 00\n".toList).data_hex_list_formatted[0]?
        = some "FFFFFFFF".toList
    ∧ ¬ fits 3 "FFFFFFFF".toList
    ∧ ¬ (∀ v ∈ (data_extract "-1 00 00 00 00 00 00 00\n".toList).data_int_list, v ≤ 255) := by
  refine ⟨by decide, by decide, by decide, by decide, by decide⟩

/-! ## Identifier Normalizer -/

theorem to_upper_char_eq_toUpper (c : Char) : to_upper_char c = c.toUpper := by
  unfold to_upper_char Char.toUpper
  have e : ('a' ≤ c ∧ c ≤ 'z') ↔ (c.toNat ≥ 97 ∧ c.toNat ≤ 122) := Iff.rfl
  simp only [e]

theorem to_upper_char_ne_x (c : Char) : to_upper_char c ≠ 'x' := by
  unfold to_upper_char
  have e : ('a' ≤ c ∧ c ≤ 'z') ↔ (97 ≤ c.toNat ∧ c.toNat ≤ 122) := Iff.rfl
  simp only [e]
  split
  · rename_i h
    obtain ⟨h1, h2⟩ := h
    generalize c.toNat = n at h1 h2
    interval_cases n <;> decide
  · rename_i h
    intro hc
    subst hc
    exact h (by decide)

theorem to_upper_char_idem (c : Char) : to_upper_char (to_upper_char c) = to_upper_char c := by
  by_cases h : 97 ≤ c.toNat ∧ c.toNat ≤ 122
  · have e : to_upper_char c = Char.ofNat (c.toNat - 32) := by
      unfold to_upper_char
      rw [if_pos]
      exact h
    rw [e]
    obtain ⟨h1, h2⟩ := h
    generalize c.toNat = n at h1 h2
    interval_cases n <;> decide
  · have e : to_upper_char c = c := by
      unfold to_upper_char
      rw [if_neg]
      exact h
    rw [e, e]

theorem to_upper_idem (s : List Char) : to_upper (to_upper s) = to_upper s := by
  simp [to_upper, to_upper_char_idem]

theorem to_upper_append (s t : List Char) : to_upper (s ++ t) = to_upper s ++ to_upper t := by
  simp [to_upper]

/-- The two cases of lines 124-126 in terms of the upper-case token. -/
theorem id_ptr_of_cases (raw : List Char) :
    (∃ p, to_upper raw = p ++ ['X'] ∧ id_ptr_of raw = p)
    ∨ ((to_upper raw).getLast? ≠ some 'X' ∧ id_ptr_of raw = to_upper raw) := by
  unfold id_ptr_of
  simp only
  by_cases h : (to_upper raw).getLast? = some 'X'
  · left
    have hne : to_upper raw ≠ [] := by
      intro h0; rw [h0] at h; simp at h
    have hlen : 0 < (to_upper raw).length := List.length_pos.mpr hne
    refine ⟨(to_upper raw).dropLast, ?_, ?_⟩
    · have := List.dropLast_append_getLast? 'X' (by simpa using h)
      exact this.symm
    · rw [if_pos ⟨hlen, h⟩]
  · right
    refine ⟨h, ?_⟩
    rw [if_neg]
    intro hc
    exact h hc.2


theorem to_upper_mem_ne_x (raw : List Char) (c : Char) (h : c ∈ to_upper raw) : c ≠ 'x' := by
  simp only [to_upper, List.mem_map] at h
  obtain ⟨a, -, rfl⟩ := h
  exact to_upper_char_ne_x a


theorem hexval_getD_lt (c : Char) : (hexval c).getD 0 < 16 := by
  cases h : hexval c with
  | none => simp
  | some d => simpa using (hexval_some c d h).1

theorem spec_hex_value_lt (s : List Char) : spec_hex_value s < 16 ^ s.length := by
  have h := @Nat.ofDigits_lt_base_pow_length 16
    ((s.map (fun c => (hexval c).getD 0)).reverse) (by decide) (by
      intro x hx
      simp only [List.mem_reverse, List.mem_map] at hx
      obtain ⟨c, -, rfl⟩ := hx
      exact hexval_getD_lt c)
  simpa [spec_hex_value] using h

theorem spec_hex_value_cons (c : Char) (r : List Char) :
    spec_hex_value (c :: r) = (hexval c).getD 0 * 16 ^ r.length + spec_hex_value r := by
  simp only [spec_hex_value, List.map_cons, List.reverse_cons, Nat.ofDigits_append,
    Nat.ofDigits_singleton, List.length_reverse, List.length_map]
  ring

/-- The digit loop of `strtol` on a text of base-16 digits. -/
theorem strtol_digits_hex (s : List Char) (acc : Nat) (h : ∀ c ∈ s, (hexval c).isSome = true) :
    strtol_digits s acc = acc * 16 ^ s.length + spec_hex_value s := by
  induction s generalizing acc with
  | nil => simp [strtol_digits, spec_hex_value]
  | cons c r ih =>
    have hc := h c (List.mem_cons_self _ _)
    obtain ⟨d, hd⟩ := Option.isSome_iff_exists.mp hc
    have hr : ∀ x ∈ r, (hexval x).isSome = true := fun x hx => h x (List.mem_cons_of_mem _ hx)
    simp only [strtol_digits, hd]
    rw [ih _ hr, spec_hex_value_cons, hd]
    simp only [Option.getD_some, List.length_cons]
    ring

/-- Line 127 on an `id_ptr` of 1 to 8 base-16 digits: its base-16 value. -/
theorem id_int_val_hex (s : List Char) (h : ∀ c ∈ s, (hexval c).isSome = true)
    (h1 : 1 ≤ s.length) (h8 : s.length ≤ 8) :
    id_int_val_of s = spec_hex_value s := by
  have hlt : spec_hex_value s < 16 ^ 8 :=
    lt_of_lt_of_le (spec_hex_value_lt s) (Nat.pow_le_pow_right (by decide) h8)
  have hdig : strtol_digits s 0 = spec_hex_value s := by
    rw [strtol_digits_hex s 0 h]; simp
  cases s with
  | nil => simp at h1
  | cons c r =>
    obtain ⟨d, hd⟩ := Option.isSome_iff_exists.mp (h c (List.mem_cons_self _ _))
    obtain ⟨-, l1, u1, -⟩ := hexval_some c d hd
    have hs := hexval_not_space c d hd
    have hpre : strtol_skip_0x (c :: r) = c :: r := by
      unfold strtol_skip_0x
      split
      · rename_i heq
        simp only [List.cons.injEq] at heq
        obtain ⟨-, hx, hr⟩ := heq
        have := h 'x' (by simp)
        exact absurd this (by decide)
      · rename_i heq
        simp only [List.cons.injEq] at heq
        obtain ⟨-, hx, hr⟩ := heq
        have := h 'X' (by simp)
        exact absurd this (by decide)
      · rfl
    have hval : strtol16 (c :: r) = ((spec_hex_value (c :: r) : Nat) : Int) := by
      unfold strtol16
      simp only [List.dropWhile_cons, hs]
      split
      · rename_i heq
        simp only [Bool.false_eq_true, if_false, List.cons.injEq] at heq
        have : c = '-' := heq.1
        subst this
        exact absurd l1 (by decide)
      · rename_i heq
        simp only [Bool.false_eq_true, if_false, List.cons.injEq] at heq
        have : c = '+' := heq.1
        subst this
        exact absurd l1 (by decide)
      · simp only [Bool.false_eq_true, if_false, hpre, hdig, LONG_MAX]
        have : (16 : Nat) ^ 8 = 4294967296 := by norm_num
        omega
    unfold id_int_val_of
    rw [hval]
    simp only [to_uint, UINT_MOD]
    have : (16 : Nat) ^ 8 = 4294967296 := by norm_num
    omega


theorem to_upper_eq_map_toUpper (s : List Char) : to_upper s = s.map Char.toUpper := by
  unfold to_upper
  exact List.map_congr_left (fun c _ => to_upper_char_eq_toUpper c)

theorem id_ptr_of_append_X (t : List Char) (c : Char) (hc : to_upper_char c = 'X') :
    id_ptr_of (t ++ [c]) = to_upper t := by
  have hup : to_upper (t ++ [c]) = to_upper t ++ ['X'] := by
    rw [to_upper_append]; simp [to_upper, hc]
  unfold id_ptr_of
  simp only [hup]
  rw [if_pos ⟨by simp, List.getLast?_concat _⟩, List.dropLast_concat]

/-! ## Totality of Phy and Dir, frames without data -/

/-- C17: for every identifier token and every data region the Phy column
is one of `0`, `-1`, `1` and the Dir column is one of `Req`, `Res`; neither
is empty.  Evaluated on a token that is no base-16 number, on a token that
is empty after the `X` is removed, and on a token of 40 characters. -/
theorem phy_dir_total (id_str_raw data_start_ptr : List Char) :
    ((decode_fields id_str_raw data_start_ptr).phy_col = "0".toList
      ∨ (decode_fields id_str_raw data_start_ptr).phy_col = "-1".toList
      ∨ (decode_fields id_str_raw data_start_ptr).phy_col = "1".toList)
    ∧ ((decode_fields id_str_raw data_start_ptr).dir_col = "Req".toList
      ∨ (decode_fields id_str_raw data_start_ptr).dir_col = "Res".toList)
    ∧ (decode_fields id_str_raw data_start_ptr).phy_col ≠ []
    ∧ (decode_fields id_str_raw data_start_ptr).dir_col ≠ []
    ∧ (decode_fields "zz,z".toList data_start_ptr).phy_col = "1".toList
    ∧ (decode_fields "zz,z".toList data_start_ptr).dir_col = "Req".toList
    ∧ (decode_fields "x".toList data_start_ptr).id_ptr = []
    ∧ (decode_fields "x".toList data_start_ptr).phy_col = "1".toList
    ∧ (decode_fields "x".toList data_start_ptr).dir_col = "Req".toList
    ∧ (decode_fields "18DB33F118DB33F118DB33F118DB33F118DB33F1".toList data_start_ptr).phy_col
        = "0".toList
    ∧ (decode_fields "18DB33F118DB33F118DB33F118DB33F118DB33F1".toList data_start_ptr).dir_col
        = "Req".toList := by
  refine ⟨?_, ?_, ?_, ?_, by simp only [decode_fields]; decide,
    by simp only [decode_fields]; decide, by simp only [decode_fields]; decide,
    by simp only [decode_fields]; decide, by simp only [decode_fields]; decide,
    by simp only [decode_fields]; decide, by simp only [decode_fields]; decide⟩
  · simp only [decode_fields, phy_col]
    split
    · exact Or.inl rfl
    · split
      · exact Or.inr (Or.inl rfl)
      · exact Or.inr (Or.inr rfl)
  · simp only [decode_fields, dir_col]
    split
    · exact Or.inr rfl
    · exact Or.inl rfl
  · simp only [decode_fields, phy_col]
    split
    · simp
    · split <;> simp
  · simp only [decode_fields, dir_col]
    split <;> simp

/-- C19: for every identifier token and every data region without a token
of length 2, the eight data values are 0, the eight data columns are `00`,
the PCI column is `SF` and the SID column is `00`. -/
theorem no_data_single_frame (id_str_raw data_start_ptr : List Char)
    (h : (spec_tokens data_start_ptr).filter (fun t => t.length = 2) = []) :
    (decode_fields id_str_raw data_start_ptr).data_int_list = List.replicate 8 0
    ∧ (decode_fields id_str_raw data_start_ptr).data_hex_list_formatted
        = List.replicate 8 "00".toList
    ∧ (decode_fields id_str_raw data_start_ptr).pci_col = "SF".toList
    ∧ (decode_fields id_str_raw data_start_ptr).sid_col = "00".toList := by
  have hacc : spec_accepted data_start_ptr = [] := by
    simp [spec_accepted, h]
  obtain ⟨h1, h2⟩ := data_extract_fields data_start_ptr
  rw [hacc] at h1 h2
  simp only [List.map_nil, List.length_nil, List.nil_append, Nat.sub_zero] at h1 h2
  simp only [decode_fields, h1, h2]
  exact ⟨trivial, trivial, by decide, by decide⟩

/-- Witness of C19: a region whose tokens have lengths 1 and 3, an empty
data region, and an accepted line with nothing after the byte count and
its space. -/
theorem no_data_single_frame_witness :
    (spec_tokens "1 234 5\n".toList).filter (fun t => t.length = 2) = []
    ∧ (decode_fields "7E0".toList "1 234 5\n".toList).data_hex_list_formatted
        = List.replicate 8 "00".toList
    ∧ (decode_fields "7E0".toList "1 234 5\n".toList).pci_col = "SF".toList
    ∧ (decode_fields "7E0".toList "1 234 5\n".toList).sid_col = "00".toList
    ∧ (decode_fields "7E0".toList []).sid_col = "00".toList
    ∧ (decode_line "0.100000 1 7E0 Rx   d 0 \n".toList).map
        (fun d => (d.fields.data_hex_list_formatted, d.fields.pci_col, d.fields.sid_col))
      = some (List.replicate 8 "00".toList, "SF".toList, "00".toList) :=
  ⟨by decide,
    (no_data_single_frame "7E0".toList "1 234 5\n".toList (by decide)).2.1,
    (no_data_single_frame "7E0".toList "1 234 5\n".toList (by decide)).2.2.1,
    (no_data_single_frame "7E0".toList "1 234 5\n".toList (by decide)).2.2.2,
    (no_data_single_frame "7E0".toList [] (by decide)).2.2.2,
    by decide⟩

/-! ## Output file name -/

/-- C18, the code at a path whose directory has a `.` and whose file name
has none: `strrchr` finds the `.` of the directory, the path is cut there
and the output is `dir.csv`, not `dir.v1/log.csv` in the directory of the
input; `./log` gives `.csv` and `../data/log` gives `..csv`.  With a `.` in
the file name the two agree. -/
theorem get_output_filename_dir_dot :
    get_output_filename "dir.v1/log".toList = "dir.csv".toList
    ∧ spec_output_filename "dir.v1/log".toList = "dir.v1/log.csv".toList
    ∧ get_output_filename "./log".toList = ".csv".toList
    ∧ spec_output_filename "./log".toList = "./log.csv".toList
    ∧ get_output_filename "../data/log".toList = "..csv".toList
    ∧ get_output_filename "dir.v1/log.asc".toList = "dir.v1/log.csv".toList
    ∧ spec_output_filename "dir.v1/log.asc".toList = "dir.v1/log.csv".toList := by
  decide

/-! ## Output: header, rows in order, write buffer -/

theorem flush_buffer_text (st : WriterState) :
    (flush_buffer st).outfile ++ (flush_buffer st).parsed_data_buffer.flatten
      = st.outfile ++ st.parsed_data_buffer.flatten := by
  simp [flush_buffer]

/-- Written text followed by buffered text, after one iteration: the text
before it, followed by the row of the line when it has one. -/
theorem loop_step_text (fmt_6f : List Char → List Char) (st : WriterState) (line : List Char) :
    (loop_step fmt_6f st line).outfile ++ (loop_step fmt_6f st line).parsed_data_buffer.flatten
      = spec_direct_step fmt_6f (st.outfile ++ st.parsed_data_buffer.flatten) line := by
  unfold loop_step spec_direct_step
  cases row_of_line fmt_6f line with
  | none => rfl
  | some row =>
    simp only
    split
    · rw [flush_buffer_text]; simp
    · simp

theorem loop_text (fmt_6f : List Char → List Char) (lines : List (List Char)) (st : WriterState) :
    (lines.foldl (loop_step fmt_6f) st).outfile
        ++ (lines.foldl (loop_step fmt_6f) st).parsed_data_buffer.flatten
      = lines.foldl (spec_direct_step fmt_6f) (st.outfile ++ st.parsed_data_buffer.flatten) := by
  induction lines generalizing st with
  | nil => rfl
  | cons l ls ih =>
    simp only [List.foldl_cons]
    rw [ih (loop_step fmt_6f st l), loop_step_text]

theorem main_output_eq_direct (fmt_6f : List Char → List Char) (lines : List (List Char)) :
    main_output fmt_6f lines = spec_direct_output fmt_6f lines := by
  have h := loop_text fmt_6f lines ⟨[], HEADER⟩
  simp only [List.flatten_nil, List.append_nil] at h
  unfold main_output spec_direct_output
  rw [← h]
  simp only
  split
  · simp [flush_buffer]
  · rename_i hlen
    have : (lines.foldl (loop_step fmt_6f) ⟨[], HEADER⟩).parsed_data_buffer = [] := by
      apply List.eq_nil_of_length_eq_zero
      omega
    simp [this]

theorem takeWhile_token (p : Char → Bool) (tok : List Char) (c : Char) (rest : List Char)
    (h : ∀ x ∈ tok, p x = true) (hc : p c = false) :
    (tok ++ c :: rest).takeWhile p = tok := by
  induction tok with
  | nil => simp [List.takeWhile_cons, hc]
  | cons a t ih =>
    have ha := h a (List.mem_cons_self _ _)
    simp only [List.cons_append, List.takeWhile_cons, ha, if_true]
    rw [ih (fun x hx => h x (List.mem_cons_of_mem _ hx))]

theorem dropWhile_token (p : Char → Bool) (tok : List Char) (c : Char) (rest : List Char)
    (h : ∀ x ∈ tok, p x = true) (hc : p c = false) :
    (tok ++ c :: rest).dropWhile p = c :: rest := by
  induction tok with
  | nil => simp [List.dropWhile_cons, hc]
  | cons a t ih =>
    have ha := h a (List.mem_cons_self _ _)
    simp only [List.cons_append, List.dropWhile_cons, ha, if_true]
    exact ih (fun x hx => h x (List.mem_cons_of_mem _ hx))

theorem isdigit_range (c : Char) (h : isdigit c = true) : 48 ≤ c.toNat ∧ c.toNat ≤ 57 := by
  simpa [isdigit] using h

theorem isdigit_not_space (c : Char) (h : isdigit c = true) : isspace c = false := by
  obtain ⟨h1, h2⟩ := isdigit_range c h
  have hne : c ≠ ' ' := by
    intro hc; subst hc; exact absurd h1 (by decide)
  simp only [isspace, hne, decide_False, Bool.false_or, Bool.and_eq_false_imp, decide_eq_true_eq]
  intro h9
  simp only [decide_eq_false_iff_not]
  omega

/-- An integer text: an optional sign, then a non-empty run of digits. -/
theorem is_integer_text_split (t : List Char) (h : is_integer_text t = true) :
    ∃ sign ds, t = sign ++ ds ∧ (sign = [] ∨ sign = ['-'] ∨ sign = ['+']) ∧ ds ≠ []
      ∧ ∀ c ∈ ds, isdigit c = true := by
  unfold is_integer_text at h
  split at h
  · rename_i r
    simp only [Bool.and_eq_true, Bool.not_eq_true', List.all_eq_true] at h
    exact ⟨['-'], r, rfl, Or.inr (Or.inl rfl), by simpa using h.1, h.2⟩
  · rename_i r
    simp only [Bool.and_eq_true, Bool.not_eq_true', List.all_eq_true] at h
    exact ⟨['+'], r, rfl, Or.inr (Or.inr rfl), by simpa using h.1, h.2⟩
  · simp only [Bool.and_eq_true, Bool.not_eq_true', List.all_eq_true] at h
    exact ⟨[], t, rfl, Or.inl rfl, by simpa using h.1, h.2⟩

/-- Conversion `%d` on white space, an integer text and a byte that is no
digit: the item is the integer text. -/
theorem scan_d_token (w t : List Char) (c : Char) (rest : List Char)
    (hw : ∀ x ∈ w, isspace x = true) (ht : is_integer_text t = true)
    (hc : isdigit c = false) :
    scan_d (w ++ t ++ c :: rest) = some (t, c :: rest) := by
  obtain ⟨sign, ds, rfl, hsign, hne, hds⟩ := is_integer_text_split t ht
  obtain ⟨d0, ds1, rfl⟩ := List.exists_cons_of_ne_nil hne
  have hd0 : isdigit d0 = true := hds d0 (List.mem_cons_self _ _)
  have hd0s : isspace d0 = false := isdigit_not_space d0 hd0
  have htk : (d0 :: ds1 ++ c :: rest).takeWhile isdigit = d0 :: ds1 :=
    takeWhile_token isdigit (d0 :: ds1) c rest hds hc
  have hdr : (d0 :: ds1 ++ c :: rest).dropWhile isdigit = c :: rest :=
    dropWhile_token isdigit (d0 :: ds1) c rest hds hc
  unfold scan_d
  rcases hsign with rfl | rfl | rfl
  · have hskip : (w ++ ([] ++ d0 :: ds1) ++ c :: rest).dropWhile isspace
        = d0 :: ds1 ++ c :: rest := by
      have := dropWhile_token isspace w d0 (ds1 ++ c :: rest) hw hd0s
      simpa using this
    rw [hskip]
    have hm : d0 ≠ '-' := by
      intro h; subst h; exact absurd hd0 (by decide)
    have hp : d0 ≠ '+' := by
      intro h; subst h; exact absurd hd0 (by decide)
    split
    · rename_i heq
      simp only [List.cons_append, List.cons.injEq] at heq
      exact absurd heq.1 hm
    · rename_i heq
      simp only [List.cons_append, List.cons.injEq] at heq
      exact absurd heq.1 hp
    · simp only [scan_digits, htk, hdr]
      simp
  · have hskip : (w ++ (['-'] ++ d0 :: ds1) ++ c :: rest).dropWhile isspace
        = '-' :: (d0 :: ds1 ++ c :: rest) := by
      have := dropWhile_token isspace w '-' (d0 :: ds1 ++ c :: rest) hw (by decide)
      simpa using this
    rw [hskip]
    simp only [scan_digits, htk, hdr]
    simp
  · have hskip : (w ++ (['+'] ++ d0 :: ds1) ++ c :: rest).dropWhile isspace
        = '+' :: (d0 :: ds1 ++ c :: rest) := by
      have := dropWhile_token isspace w '+' (d0 :: ds1 ++ c :: rest) hw (by decide)
      simpa using this
    rw [hskip]
    simp only [scan_digits, htk, hdr]
    simp

/-- Conversion `%s` on white space, a token and a white-space byte: the
item is the token. -/
theorem scan_s_token (w t : List Char) (c : Char) (rest : List Char)
    (hw : ∀ x ∈ w, isspace x = true) (hne : t ≠ []) (ht : ∀ x ∈ t, isspace x = false)
    (hc : isspace c = true) :
    scan_s (w ++ t ++ c :: rest) = some (t, c :: rest) := by
  obtain ⟨t0, t1, rfl⟩ := List.exists_cons_of_ne_nil hne
  have ht0 : isspace t0 = false := ht t0 (List.mem_cons_self _ _)
  have hskip : (w ++ (t0 :: t1) ++ c :: rest).dropWhile isspace = t0 :: t1 ++ c :: rest := by
    have := dropWhile_token isspace w t0 (t1 ++ c :: rest) hw ht0
    simpa using this
  unfold scan_s
  rw [hskip]
  have h1 := takeWhile_token (fun x => !isspace x) (t0 :: t1) c rest
    (fun x hx => by simp [ht x hx]) (by simp [hc])
  have h2 := dropWhile_token (fun x => !isspace x) (t0 :: t1) c rest
    (fun x hx => by simp [ht x hx]) (by simp [hc])
  simp only [List.cons_append] at h1 h2 ⊢
  rw [h1, h2]

theorem to_lower_char_digit (c : Char) (h : isdigit c = true) : to_lower_char c = c := by
  obtain ⟨h1, h2⟩ := isdigit_range c h
  unfold to_lower_char
  rw [if_neg]
  intro hc
  have e : ('A' ≤ c) ↔ (65 ≤ c.toNat) := Iff.rfl
  rw [e] at hc
  omega

/-- A byte of a decimal number without exponent, or the space after it,
is none of the letters that `%lf` looks for. -/
theorem decimal_byte_plain (c : Char) (h : isdigit c = true ∨ c = '.' ∨ c = ' ') :
    to_lower_char c = c ∧ c ≠ 'x' ∧ c ≠ 'n' ∧ c ≠ 'i' ∧ c ≠ 'e' ∧ c ≠ '-' ∧ c ≠ '+' := by
  rcases h with h | h | h
  · refine ⟨to_lower_char_digit c h, ?_, ?_, ?_, ?_, ?_, ?_⟩ <;>
    · intro hc; subst hc; exact absurd h (by decide)
  · subst h; decide
  · subst h; decide

/-- The mantissa scan on a decimal number (digits, then nothing or a point
and digits; at least one digit) that is followed by a space. -/
theorem scan_mantissa_decimal (ip fr rest : List Char)
    (hip : ∀ c ∈ ip, isdigit c = true)
    (hfr : fr = [] ∨ ∃ fp, fr = '.' :: fp ∧ ∀ c ∈ fp, isdigit c = true)
    (hd : ip ≠ [] ∨ 2 ≤ fr.length) :
    scan_mantissa isdigit 'e' (ip ++ fr ++ ' ' :: rest) = (ip ++ fr, ' ' :: rest) := by
  have he : scan_exponent 'e' (' ' :: rest) = ([], ' ' :: rest) := by
    simp [scan_exponent, to_lower_char]
  rcases hfr with rfl | ⟨fp, rfl, hfp⟩
  · have hne : ip ≠ [] := by
      rcases hd with h | h
      · exact h
      · simp at h
    have h1 : (ip ++ ' ' :: rest).takeWhile isdigit = ip :=
      takeWhile_token isdigit ip ' ' _ hip (by decide)
    have h2 : (ip ++ ' ' :: rest).dropWhile isdigit = ' ' :: rest :=
      dropWhile_token isdigit ip ' ' _ hip (by decide)
    simp only [List.append_nil]
    unfold scan_mantissa
    simp [h1, h2, he, hne]
  · have h1 : (ip ++ '.' :: fp ++ ' ' :: rest).takeWhile isdigit = ip := by
      rw [List.append_assoc]
      exact takeWhile_token isdigit ip '.' _ hip (by decide)
    have h2 : (ip ++ '.' :: fp ++ ' ' :: rest).dropWhile isdigit
        = '.' :: (fp ++ ' ' :: rest) := by
      rw [List.append_assoc]
      exact dropWhile_token isdigit ip '.' _ hip (by decide)
    have h3 : (fp ++ ' ' :: rest).takeWhile isdigit = fp :=
      takeWhile_token isdigit fp ' ' _ hfp (by decide)
    have h4 : (fp ++ ' ' :: rest).dropWhile isdigit = ' ' :: rest :=
      dropWhile_token isdigit fp ' ' _ hfp (by decide)
    have hnot : ¬ (ip = [] ∧ fp = []) := by
      rintro ⟨rfl, rfl⟩
      rcases hd with h | h
      · exact h rfl
      · simp at h
    unfold scan_mantissa
    simp only [h1, h2, h3, h4, he, hnot, if_false, List.append_nil]

/-- Conversion `%lf` on a decimal number (digits, then nothing or a point
and digits; at least one digit) that is followed by a space: the item is
the number. -/
theorem scan_lf_decimal (ip fr rest : List Char)
    (hip : ∀ c ∈ ip, isdigit c = true)
    (hfr : fr = [] ∨ ∃ fp, fr = '.' :: fp ∧ ∀ c ∈ fp, isdigit c = true)
    (hd : ip ≠ [] ∨ 2 ≤ fr.length) :
    scan_lf (ip ++ fr ++ ' ' :: rest) = some (ip ++ fr, ' ' :: rest) := by
  have hman := scan_mantissa_decimal ip fr rest hip hfr hd
  have hall : ∀ c ∈ ip ++ fr ++ [' '], isdigit c = true ∨ c = '.' ∨ c = ' ' := by
    intro c hc
    simp only [List.mem_append, List.mem_singleton] at hc
    rcases hc with (hc | hc) | hc
    · exact Or.inl (hip c hc)
    · rcases hfr with rfl | ⟨fp, rfl, hfp⟩
      · simp at hc
      · rcases List.mem_cons.mp hc with hc | hc
        · exact Or.inr (Or.inl hc)
        · exact Or.inl (hfp c hc)
    · exact Or.inr (Or.inr hc)
  have hne : ip ++ fr ≠ [] := by
    rcases hd with h | h
    · simp [h]
    · intro h0
      have : fr = [] := (List.append_eq_nil.mp h0).2
      rw [this] at h
      simp at h
  have h2 : 2 ≤ (ip ++ fr).length → ∀ c ∈ ip ++ fr, c ≠ ' ' → True := fun _ _ _ _ => trivial
  obtain ⟨c0, t1, ht⟩ := List.exists_cons_of_ne_nil hne
  have hc0 := decimal_byte_plain c0 (hall c0 (by rw [ht]; simp))
  have hc0d : isdigit c0 = true ∨ c0 = '.' := by
    have hm : c0 ∈ ip ++ fr := by rw [ht]; simp
    rcases List.mem_append.mp hm with hm | hm
    · exact Or.inl (hip c0 hm)
    · rcases hfr with rfl | ⟨fp, rfl, hfp⟩
      · simp at hm
      · rcases List.mem_cons.mp hm with hm | hm
        · exact Or.inr hm
        · exact Or.inl (hfp c0 hm)
  have hc0s : isspace c0 = false := by
    rcases hc0d with h | h
    · exact isdigit_not_space c0 h
    · subst h; decide
  have hnox : begins_nocase ['0', 'x'] (c0 :: (t1 ++ ' ' :: rest)) = false := by
    cases t1 with
    | nil => simp [begins_nocase, to_lower_char]
    | cons c1 t2 =>
      have hc1 := decimal_byte_plain c1 (hall c1 (by rw [ht]; simp))
      simp [begins_nocase, hc1.1, hc1.2.1]
  have hassoc : ip ++ fr ++ ' ' :: rest = c0 :: (t1 ++ ' ' :: rest) := by
    rw [ht]; rfl
  rw [hassoc] at hman ⊢
  unfold scan_lf
  simp only [List.dropWhile_cons, hc0s]
  split
  · rename_i heq
    simp only [Bool.false_eq_true, if_false, List.cons.injEq] at heq
    exact absurd heq.1 hc0.2.2.2.2.2.1
  · rename_i heq
    simp only [Bool.false_eq_true, if_false, List.cons.injEq] at heq
    exact absurd heq.1 hc0.2.2.2.2.2.2
  · simp only [Bool.false_eq_true, if_false]
    unfold scan_unsigned_number
    simp only [hc0.1, hc0.2.2.1, hc0.2.2.2.1, if_false, hnox, Bool.false_eq_true, hman, ht]
    have hdot : c0 :: t1 ≠ ['.'] := by
      intro h0
      rw [← ht] at h0
      rcases hd with h | h
      · rcases hfr with rfl | ⟨fp, rfl, hfp⟩
        · rw [List.append_nil] at h0
          have := hip '.' (by rw [h0]; simp)
          exact absurd this (by decide)
        · have hl := congrArg List.length h0
          simp only [List.length_append, List.length_cons, List.length_nil] at hl
          have := List.length_pos.mpr h
          omega
      · have hl := congrArg List.length h0
        simp only [List.length_append, List.length_cons, List.length_nil] at hl
        rcases hfr with rfl | ⟨fp, rfl, hfp⟩
        · simp at h
        · simp only [List.length_cons] at h hl
          have hip0 : ip = [] := List.length_eq_zero.mp (by omega)
          have hfp1 : fp.length = 0 := by omega
          omega
    simp [hdot]

/-! ## Finding the data region -/

theorem strstr_here (tail : List Char) : strstr (MARKER ++ tail) MARKER = some (MARKER ++ tail) := by
  simp [MARKER, strstr]

/-- A byte that is no space does not start the marker. -/
theorem strstr_skip_byte (c : Char) (s : List Char) (hc : c ≠ ' ') :
    strstr (c :: s) MARKER = strstr s MARKER := by
  rw [strstr, if_neg]
  intro h
  simp only [MARKER, List.cons_prefix_cons] at h
  exact hc h.1.symm

theorem strstr_skip_token (tok s : List Char) (h : ∀ c ∈ tok, c ≠ ' ') :
    strstr (tok ++ s) MARKER = strstr s MARKER := by
  induction tok with
  | nil => rfl
  | cons a t ih =>
    rw [List.cons_append, strstr_skip_byte a _ (h a (List.mem_cons_self _ _))]
    exact ih (fun c hc => h c (List.mem_cons_of_mem _ hc))

/-- A space that is not followed by `R` does not start the marker. -/
theorem strstr_skip_space (c : Char) (s : List Char) (hc : c ≠ 'R') :
    strstr (' ' :: c :: s) MARKER = strstr (c :: s) MARKER := by
  rw [strstr, if_neg]
  intro h
  simp only [MARKER, List.cons_prefix_cons] at h
  exact hc h.2.1.symm

/-- The space in front of an identifier token that the marker follows does
not start the marker, whatever the token is. -/
theorem strstr_skip_space_id (id tail : List Char) (h : ∀ c ∈ id, c ≠ ' ') :
    strstr (' ' :: (id ++ MARKER ++ tail)) MARKER = strstr (id ++ MARKER ++ tail) MARKER := by
  rw [strstr, if_neg]
  intro hp
  rcases id with _ | ⟨a, _ | ⟨b, _ | ⟨c, r⟩⟩⟩
  · simp [MARKER, List.cons_prefix_cons] at hp
  · simp [MARKER, List.cons_prefix_cons] at hp
  · simp [MARKER, List.cons_prefix_cons] at hp
  · have hc := h c (by simp)
    simp only [MARKER, List.cons_append, List.cons_prefix_cons] at hp
    exact hc hp.2.2.2.1.symm

theorem strchr_token (tok rest : List Char) (h : ∀ c ∈ tok, c ≠ ' ') :
    strchr (tok ++ ' ' :: rest) ' ' = some (' ' :: rest) := by
  induction tok with
  | nil => simp [strchr]
  | cons a t ih =>
    have ha := h a (List.mem_cons_self _ _)
    rw [List.cons_append, strchr, if_neg ha]
    exact ih (fun c hc => h c (List.mem_cons_of_mem _ hc))

theorem isdigit_ne_space (c : Char) (h : isdigit c = true) : c ≠ ' ' := by
  intro hc; subst hc; exact absurd h (by decide)

theorem integer_text_no_space (t : List Char) (h : is_integer_text t = true) :
    ∀ c ∈ t, c ≠ ' ' := by
  obtain ⟨sign, ds, rfl, hsign, -, hds⟩ := is_integer_text_split t h
  intro c hc
  rcases List.mem_append.mp hc with hs | hd
  · rcases hsign with rfl | rfl | rfl
    · simp at hs
    · simp only [List.mem_singleton] at hs; subst hs; decide
    · simp only [List.mem_singleton] at hs; subst hs; decide
  · exact isdigit_ne_space c (hds c hd)

theorem integer_text_head (t : List Char) (h : is_integer_text t = true) :
    ∃ c r, t = c :: r ∧ c ≠ 'R' ∧ isspace c = false := by
  obtain ⟨sign, ds, rfl, hsign, hne, hds⟩ := is_integer_text_split t h
  obtain ⟨d0, ds1, rfl⟩ := List.exists_cons_of_ne_nil hne
  have hd0 := hds d0 (List.mem_cons_self _ _)
  rcases hsign with rfl | rfl | rfl
  · refine ⟨d0, ds1, rfl, ?_, isdigit_not_space d0 hd0⟩
    intro hc; subst hc; exact absurd hd0 (by decide)
  · exact ⟨'-', d0 :: ds1, rfl, by decide, by decide⟩
  · exact ⟨'+', d0 :: ds1, rfl, by decide, by decide⟩

theorem not_space_of_not_isspace (c : Char) (h : isspace c = false) : c ≠ ' ' := by
  intro hc; subst hc; exact absurd h (by decide)

/-! ## A line in the form of the trace format -/

/-- Lines 94-106 on a line in the standard form: the data region starts
right after the space that follows the byte count. -/
theorem locate_data_standard (ts ch id cnt region : List Char)
    (hts : ∀ c ∈ ts, c ≠ ' ') (hch : is_integer_text ch = true)
    (hid : ∀ c ∈ id, c ≠ ' ') (hcnt : is_integer_text cnt = true) :
    locate_data (standard_line ts ch id cnt region) = some region := by
  obtain ⟨c0, cr, rfl, hc0, -⟩ := integer_text_head ch hch
  have hchs := integer_text_no_space _ hch
  have hcnts := integer_text_no_space _ hcnt
  have hfind : strstr (standard_line ts (c0 :: cr) id cnt region) MARKER
      = some (MARKER ++ (cnt ++ ' ' :: region)) := by
    unfold standard_line
    rw [strstr_skip_token ts _ hts, List.cons_append, strstr_skip_space c0 _ hc0]
    rw [← List.cons_append, strstr_skip_token (c0 :: cr) _ hchs]
    have := strstr_skip_space_id id (cnt ++ ' ' :: region) hid
    rw [List.append_assoc] at this
    rw [this, strstr_skip_token id _ hid]
    exact strstr_here _
  unfold locate_data
  rw [hfind]
  simp only [List.drop_left, strchr_token cnt region hcnts]
  rfl

/-- Line 114 on a line in the standard form: `sscanf` returns 5. -/
theorem sscanf_line_standard (ip fr ch id cnt region : List Char)
    (hip : ∀ c ∈ ip, isdigit c = true)
    (hfr : fr = [] ∨ ∃ fp, fr = '.' :: fp ∧ ∀ c ∈ fp, isdigit c = true)
    (hd : ip ≠ [] ∨ 2 ≤ fr.length)
    (hch : is_integer_text ch = true) (hidne : id ≠ [])
    (hid : ∀ c ∈ id, isspace c = false) (hcnt : is_integer_text cnt = true) :
    sscanf_line (standard_line (ip ++ fr) ch id cnt region)
      = some ⟨ip ++ fr, id, ['R', 'x'], ['d'], cnt⟩ := by
  have e1 : standard_line (ip ++ fr) ch id cnt region
      = ip ++ fr ++ ' ' :: (ch ++ ' ' :: (id ++ (MARKER ++ (cnt ++ ' ' :: region)))) := rfl
  have s1 := scan_lf_decimal ip fr (ch ++ ' ' :: (id ++ (MARKER ++ (cnt ++ ' ' :: region))))
    hip hfr hd
  have s2 : scan_d (' ' :: (ch ++ ' ' :: (id ++ (MARKER ++ (cnt ++ ' ' :: region)))))
      = some (ch, ' ' :: (id ++ (MARKER ++ (cnt ++ ' ' :: region)))) := by
    have := scan_d_token [' '] ch ' ' (id ++ (MARKER ++ (cnt ++ ' ' :: region)))
      (by simp [isspace]) hch (by decide)
    simpa using this
  have s3 : scan_s (' ' :: (id ++ (MARKER ++ (cnt ++ ' ' :: region))))
      = some (id, MARKER ++ (cnt ++ ' ' :: region)) := by
    have := scan_s_token [' '] id ' ' (['R', 'x', ' ', ' ', ' ', 'd', ' '] ++ (cnt ++ ' ' :: region))
      (by simp [isspace]) hidne hid (by decide)
    simpa [MARKER] using this
  have s4 : scan_s (MARKER ++ (cnt ++ ' ' :: region))
      = some (['R', 'x'], ' ' :: ' ' :: ' ' :: 'd' :: ' ' :: (cnt ++ ' ' :: region)) := by
    have := scan_s_token [' '] ['R', 'x'] ' ' (' ' :: ' ' :: 'd' :: ' ' :: (cnt ++ ' ' :: region))
      (by simp [isspace]) (by simp) (by decide) (by decide)
    simpa [MARKER] using this
  have s5 : scan_s (' ' :: ' ' :: ' ' :: 'd' :: ' ' :: (cnt ++ ' ' :: region))
      = some (['d'], ' ' :: (cnt ++ ' ' :: region)) := by
    have := scan_s_token [' ', ' ', ' '] ['d'] ' ' (cnt ++ ' ' :: region)
      (by simp [isspace]) (by simp) (by decide) (by decide)
    simpa using this
  have s6 : scan_d (' ' :: (cnt ++ ' ' :: region)) = some (cnt, ' ' :: region) := by
    have := scan_d_token [' '] cnt ' ' region (by simp [isspace]) hcnt (by decide)
    simpa using this
  unfold sscanf_line
  rw [e1, s1]
  simp only [s2, s3, s4, s5, s6]

/-- A decimal number without exponent holds no space. -/
theorem decimal_no_space (ip fr : List Char) (hip : ∀ c ∈ ip, isdigit c = true)
    (hfr : fr = [] ∨ ∃ fp, fr = '.' :: fp ∧ ∀ c ∈ fp, isdigit c = true) :
    ∀ c ∈ ip ++ fr, c ≠ ' ' := by
  intro c hc
  rcases List.mem_append.mp hc with h | h
  · exact isdigit_ne_space c (hip c h)
  · rcases hfr with rfl | ⟨fp, rfl, hfp⟩
    · simp at h
    · rcases List.mem_cons.mp h with h | h
      · subst h; decide
      · exact isdigit_ne_space c (hfp c h)

/-- Lines 89-209 on a line in the standard form, as `fgets` returns it (at
most 255 bytes): the line is accepted, the time is read from the decimal
number, the identifier token is the third field and the data region is
the text after the byte count and one space. -/
theorem decode_line_standard (ip fr ch id cnt region : List Char)
    (hip : ∀ c ∈ ip, isdigit c = true)
    (hfr : fr = [] ∨ ∃ fp, fr = '.' :: fp ∧ ∀ c ∈ fp, isdigit c = true)
    (hd : ip ≠ [] ∨ 2 ≤ fr.length)
    (hch : is_integer_text ch = true) (hidne : id ≠ [])
    (hid : ∀ c ∈ id, isspace c = false) (hcnt : is_integer_text cnt = true)
    (hlen : (standard_line (ip ++ fr) ch id cnt region).length ≤ 255) :
    decode_line (standard_line (ip ++ fr) ch id cnt region)
      = some ⟨ip ++ fr, decode_fields id region⟩ := by
  have hts := decimal_no_space ip fr hip hfr
  have hids : ∀ c ∈ id, c ≠ ' ' := fun c hc => not_space_of_not_isspace c (hid c hc)
  have hloc := locate_data_standard (ip ++ fr) ch id cnt region hts hch hids hcnt
  have hscan := sscanf_line_standard ip fr ch id cnt region hip hfr hd hch hidne hid hcnt
  have hcopy : strncpy (standard_line (ip ++ fr) ch id cnt region) (MAX_LINE_LENGTH - 1)
      = standard_line (ip ++ fr) ch id cnt region := by
    unfold strncpy
    exact List.take_of_length_le hlen
  unfold decode_line
  simp only [hcopy, hloc, hscan]
  rfl

/-! ## Data columns of a line with eight two-digit tokens -/

theorem hex_char_hexval (c : Char) :
    hexval c = none ∨ hex_char ((hexval c).getD 0) = to_upper_char c := by
  by_cases h : 48 ≤ c.toNat ∧ c.toNat ≤ 102
  · obtain ⟨h1, h2⟩ := h
    have e : c = Char.ofNat c.toNat := (Char.ofNat_toNat c).symm
    rw [e]
    generalize c.toNat = n at h1 h2
    interval_cases n <;> decide
  · left
    cases hv : hexval c with
    | none => rfl
    | some d =>
      obtain ⟨-, l, u, -⟩ := hexval_some c d hv
      exact absurd ⟨l, u⟩ h

theorem isxdigit_not_delim (c : Char) (h : isxdigit c = true) : strtok_delim c = false := by
  obtain ⟨d, hd⟩ := Option.isSome_iff_exists.mp h
  obtain ⟨-, l, -, -⟩ := hexval_some c d hd
  have h1 : c ≠ ' ' := by intro hc; subst hc; exact absurd l (by decide)
  have h2 : c ≠ '\t' := by intro hc; subst hc; exact absurd l (by decide)
  have h3 : c ≠ '\n' := by intro hc; subst hc; exact absurd l (by decide)
  simp [strtok_delim, h1, h2, h3]

/-- Text stored for a token of two base-16 digits: the two digits in upper
case. -/
theorem sprintf_token_hex_pair (b : List Char) (hlen : b.length = 2)
    (hx : ∀ c ∈ b, isxdigit c = true) :
    sprintf_02X (token_value b) = to_upper b := by
  rcases b with _ | ⟨c1, _ | ⟨c2, _ | ⟨c3, r⟩⟩⟩ <;> simp at hlen
  obtain ⟨d1, hd1⟩ := Option.isSome_iff_exists.mp (hx c1 (by simp))
  obtain ⟨d2, hd2⟩ := Option.isSome_iff_exists.mp (hx c2 (by simp))
  have b1 := (hexval_some c1 d1 hd1).1
  have b2 := (hexval_some c2 d2 hd2).1
  have hv : token_value [c1, c2] = 16 * d1 + d2 := strtol16_hex_pair c1 c2 d1 d2 hd1 hd2
  rw [hv, sprintf_02X_byte _ (by omega)]
  have e1 : (16 * d1 + d2) / 16 = d1 := by omega
  have e2 : (16 * d1 + d2) % 16 = d2 := by omega
  rw [e1, e2]
  have k1 := hex_char_hexval c1
  have k2 := hex_char_hexval c2
  rw [hd1] at k1
  rw [hd2] at k2
  simp only [Option.getD_some] at k1 k2
  rcases k1 with k1 | k1
  · exact absurd k1 (by simp)
  rcases k2 with k2 | k2
  · exact absurd k2 (by simp)
  simp [to_upper, k1, k2]

theorem spec_tokens_token_step (tok : List Char) (d : Char) (rest : List Char)
    (hne : tok ≠ []) (htok : ∀ c ∈ tok, strtok_delim c = false) (hd : strtok_delim d = true) :
    spec_tokens (tok ++ d :: rest) = tok :: spec_tokens rest := by
  obtain ⟨c, r, rfl⟩ := List.exists_cons_of_ne_nil hne
  have hc := htok c (List.mem_cons_self _ _)
  rw [List.cons_append, spec_tokens_cons_token c _ hc]
  have h1 := takeWhile_token (fun x => !strtok_delim x) (c :: r) d rest
    (fun x hx => by simp [htok x hx]) (by simp [hd])
  have h2 := dropWhile_token (fun x => !strtok_delim x) (c :: r) d rest
    (fun x hx => by simp [htok x hx]) (by simp [hd])
  simp only [List.cons_append] at h1 h2
  rw [h1, h2]
  rfl

/-- Tokens of a region made of tokens separated by single spaces and ended
by a newline. -/
theorem spec_tokens_spaced (bs : List (List Char)) (hne : bs ≠ [])
    (h : ∀ b ∈ bs, b ≠ [] ∧ ∀ c ∈ b, strtok_delim c = false) :
    spec_tokens (List.intercalate [' '] bs ++ ['\n']) = bs := by
  induction bs with
  | nil => exact absurd rfl hne
  | cons b r ih =>
    obtain ⟨hb1, hb2⟩ := h b (List.mem_cons_self _ _)
    cases r with
    | nil =>
      have e : List.intercalate [' '] [b] ++ ['\n'] = b ++ '\n' :: [] := by
        simp [List.intercalate]
      rw [e, spec_tokens_token_step b '\n' [] hb1 hb2 (by decide), spec_tokens_nil]
    | cons b2 r2 =>
      have e : List.intercalate [' '] (b :: b2 :: r2) ++ ['\n']
          = b ++ ' ' :: (List.intercalate [' '] (b2 :: r2) ++ ['\n']) := by
        simp [List.intercalate]
      rw [e, spec_tokens_token_step b ' ' _ hb1 hb2 (by decide)]
      rw [ih (by simp) (fun x hx => h x (List.mem_cons_of_mem _ hx))]

/-- Data columns of a region of eight tokens of two base-16 digits: the
tokens in upper case, in order. -/
theorem data_extract_eight (bs : List (List Char)) (hlen : bs.length = 8)
    (h : ∀ b ∈ bs, b.length = 2 ∧ ∀ c ∈ b, isxdigit c = true) :
    (data_extract (List.intercalate [' '] bs ++ ['\n'])).data_hex_list_formatted
      = bs.map to_upper := by
  have hne : bs ≠ [] := by
    intro h0; rw [h0] at hlen; simp at hlen
  have htok : spec_tokens (List.intercalate [' '] bs ++ ['\n']) = bs := by
    apply spec_tokens_spaced bs hne
    intro b hb
    obtain ⟨h2, hx⟩ := h b hb
    refine ⟨?_, fun c hc => isxdigit_not_delim c (hx c hc)⟩
    intro h0; rw [h0] at h2; simp at h2
  have hacc : spec_accepted (List.intercalate [' '] bs ++ ['\n']) = bs := by
    unfold spec_accepted
    rw [htok]
    have hf : bs.filter (fun t => decide (t.length = 2)) = bs := by
      apply List.filter_eq_self.mpr
      intro b hb
      simp [(h b hb).1]
    rw [hf, ← hlen, List.take_length]
  rw [(data_extract_fields _).2, hacc, hlen]
  simp only [Nat.sub_self, List.replicate_zero, List.append_nil]
  apply List.map_congr_left
  intro b hb
  exact sprintf_token_hex_pair b (h b hb).1 (h b hb).2

theorem hex_char_ne_X (d : Nat) (h : d < 16) : hex_char d ≠ 'X' := by
  interval_cases d <;> decide

theorem to_upper_char_hex_ne_X (c : Char) (h : isxdigit c = true) : to_upper_char c ≠ 'X' := by
  obtain ⟨d, hd⟩ := Option.isSome_iff_exists.mp h
  have k := hex_char_hexval c
  rw [hd] at k
  rcases k with k | k
  · exact absurd k (by simp)
  · simp only [Option.getD_some] at k
    rw [← k]
    exact hex_char_ne_X d (hexval_some c d hd).1

/-- Identifier of base-16 digits with an optional `x` or `X` after them:
`id_ptr` is the digits in upper case. -/
theorem id_ptr_of_hex (hx sfx : List Char) (hhx : ∀ c ∈ hx, isxdigit c = true)
    (hsfx : sfx = [] ∨ sfx = ['x'] ∨ sfx = ['X']) :
    id_ptr_of (hx ++ sfx) = to_upper hx := by
  rcases hsfx with rfl | rfl | rfl
  · rw [List.append_nil]
    rcases id_ptr_of_cases hx with ⟨p, hp, -⟩ | ⟨-, hid⟩
    · exfalso
      have hm : 'X' ∈ to_upper hx := by rw [hp]; simp
      simp only [to_upper, List.mem_map] at hm
      obtain ⟨a, ha, hax⟩ := hm
      exact to_upper_char_hex_ne_X a (hhx a ha) hax
    · exact hid
  · exact id_ptr_of_append_X hx 'x' (by decide)
  · exact id_ptr_of_append_X hx 'X' (by decide)

theorem main_output_single (fmt_6f : List Char → List Char) (line : List Char) (d : Decoded)
    (h : decode_line line = some d) :
    main_output fmt_6f [line] = HEADER ++ snprintf_row (fmt_6f d.time_item) d.fields := by
  rw [main_output_eq_direct]
  simp [spec_direct_output, spec_direct_step, row_of_line, h]

/-! ## Which lines give a record -/

theorem id_ptr_of_length (id_str_raw : List Char) :
    (id_ptr_of id_str_raw).length ≤ id_str_raw.length := by
  rcases id_ptr_of_cases id_str_raw with ⟨p, hp, hid⟩ | ⟨-, hid⟩
  · have : (to_upper id_str_raw).length = p.length + 1 := by rw [hp]; simp
    rw [hid]
    simp only [to_upper, List.length_map] at this
    omega
  · rw [hid]
    simp [to_upper]

theorem ta_col_length (id_ptr : List Char) : (ta_col id_ptr).length ≤ 3 := by
  unfold ta_col
  simp only
  split
  · split
    · simp only [strncpy, List.length_take]; omega
    · split
      · simp only [strncpy, List.length_take]; omega
      · simp
  · split
    · rename_i h3; omega
    · simp

theorem phy_col_cases (v : Nat) (p : List Char) :
    phy_col v p = "0".toList ∨ phy_col v p = "-1".toList ∨ phy_col v p = "1".toList := by
  unfold phy_col
  split
  · exact Or.inl rfl
  · split
    · exact Or.inr (Or.inl rfl)
    · exact Or.inr (Or.inr rfl)

theorem dir_col_cases (v : Nat) (p : List Char) :
    dir_col v p = "Res".toList ∨ dir_col v p = "Req".toList := by
  unfold dir_col
  split
  · exact Or.inl rfl
  · exact Or.inr rfl

/-- The `%02X` text of a byte fits a row of 3 bytes. -/
theorem sprintf_02X_fits (v : Nat) (h : v ≤ 255) : fits 3 (sprintf_02X v) := by
  rw [sprintf_02X_byte v (by omega)]
  simp [fits]

/-- When every data value is a byte, every text of the record fits its
array. -/
theorem fields_fit_of_bytes (id_str_raw data_start_ptr : List Char)
    (h : ∀ v ∈ (data_extract data_start_ptr).data_int_list, v ≤ 255) :
    fields_fit (decode_fields id_str_raw data_start_ptr) := by
  obtain ⟨d0, d1, d2, rest, hd, hx⟩ := data_extract_first_three data_start_ptr
  have hmap := data_extract_hex_eq_map data_start_ptr
  refine ⟨?_, ?_, ?_, ?_, ?_, ?_⟩
  · intro t ht
    simp only [decode_fields] at ht
    rw [hmap, List.mem_map] at ht
    obtain ⟨v, hv, rfl⟩ := ht
    exact sprintf_02X_fits v (h v hv)
  · simp only [decode_fields]
    rcases phy_col_cases (id_int_val_of (id_ptr_of id_str_raw)) (id_ptr_of id_str_raw)
      with e | e | e <;> rw [e] <;> decide
  · simp only [decode_fields]
    rcases dir_col_cases (id_int_val_of (id_ptr_of id_str_raw)) (id_ptr_of id_str_raw)
      with e | e <;> rw [e] <;> decide
  · simp only [decode_fields, fits]
    have := ta_col_length (id_ptr_of id_str_raw)
    omega
  · simp only [decode_fields]
    rcases pci_col_cases (data_extract data_start_ptr).data_int_list
      with e | e | e | e | e <;> rw [e] <;> decide
  · simp only [decode_fields]
    rw [sid_col_eq]
    have h1 : arr_get (data_extract data_start_ptr).data_int_list 1 ≤ 255 := by
      rw [hd]; exact h d1 (by rw [hd]; simp)
    have h2 : arr_get (data_extract data_start_ptr).data_int_list 2 ≤ 255 := by
      rw [hd]; exact h d2 (by rw [hd]; simp)
    split
    · exact sprintf_02X_fits _ h1
    · split
      · exact sprintf_02X_fits _ h2
      · decide

/-- On a line where `sscanf` returns 5, its writes stay inside the arrays
exactly when the three `%s` items fit. -/
theorem sscanf_fit_of_some (line : List Char) (sc : Scanned) (h : sscanf_line line = some sc) :
    sscanf_fit line
      = (decide (fits 32 sc.id_str_raw) && (decide (fits 4 sc.temp_rx)
          && decide (fits 2 sc.temp_d))) := by
  unfold sscanf_line at h
  unfold sscanf_fit
  cases h1 : scan_lf line with
  | none => simp [h1] at h
  | some p1 =>
    obtain ⟨t, r1⟩ := p1
    cases h2 : scan_d r1 with
    | none => simp [h1, h2] at h
    | some p2 =>
      obtain ⟨ch, r2⟩ := p2
      cases h3 : scan_s r2 with
      | none => simp [h1, h2, h3] at h
      | some p3 =>
        obtain ⟨id, r3⟩ := p3
        cases h4 : scan_s r3 with
        | none => simp [h1, h2, h3, h4] at h
        | some p4 =>
          obtain ⟨rx, r4⟩ := p4
          cases h5 : scan_s r4 with
          | none => simp [h1, h2, h3, h4, h5] at h
          | some p5 =>
            obtain ⟨dd, r5⟩ := p5
            cases h6 : scan_d r5 with
            | none => simp [h1, h2, h3, h4, h5, h6] at h
            | some p6 =>
              obtain ⟨cnt, rest⟩ := p6
              simp only [h1, h2, h3, h4, h5, h6, Option.some.injEq] at h
              subst h
              simp only [h2, h3, h4, h5]

/-- A line gives a record with every write inside its array exactly when
the decoder accepts it, the items of `sscanf` fit and the texts of the
record fit. -/
theorem run_line_record (line : List Char) (d : Decoded) :
    run_line line = Outcome.record d
      ↔ decode_line line = some d ∧ sscanf_fit line = true ∧ fields_fit d.fields := by
  unfold run_line decode_line
  simp only
  cases hloc : locate_data (strncpy line (MAX_LINE_LENGTH - 1)) with
  | none => simp
  | some data =>
    simp only
    cases hfit : sscanf_fit line with
    | false => simp
    | true =>
      simp only [Bool.true_eq_false, if_false]
      cases hsc : sscanf_line line with
      | none => simp
      | some sc =>
        simp only
        by_cases hcmp : strcmp sc.temp_rx ['R', 'x'] ≠ 0 ∨ strcmp sc.temp_d ['d'] ≠ 0
        · simp [hcmp]
        · simp only [hcmp, if_false]
          by_cases hf : fields_fit (decode_fields sc.id_str_raw data)
          · simp only [hf, if_true, Outcome.record.injEq, Option.some.injEq, true_and]
            constructor
            · intro h; subst h; exact ⟨rfl, hf⟩
            · intro h; exact h.1
          · simp only [hf, if_false]
            constructor
            · intro h; exact absurd h (by simp)
            · rintro ⟨h, -, h2⟩
              simp only [Option.some.injEq] at h
              subst h
              exact absurd h2 hf

/-- When every row of the data texts fits its 3 bytes, every text of the
record fits its array. -/
theorem fields_fit_of_rows (id_str_raw data_start_ptr : List Char)
    (h : ∀ t ∈ (data_extract data_start_ptr).data_hex_list_formatted, fits 3 t) :
    fields_fit (decode_fields id_str_raw data_start_ptr) := by
  obtain ⟨d0, d1, d2, rest, hd, hx⟩ := data_extract_first_three data_start_ptr
  refine ⟨?_, ?_, ?_, ?_, ?_, ?_⟩
  · intro t ht
    exact h t ht
  · simp only [decode_fields]
    rcases phy_col_cases (id_int_val_of (id_ptr_of id_str_raw)) (id_ptr_of id_str_raw)
      with e | e | e <;> rw [e] <;> decide
  · simp only [decode_fields]
    rcases dir_col_cases (id_int_val_of (id_ptr_of id_str_raw)) (id_ptr_of id_str_raw)
      with e | e <;> rw [e] <;> decide
  · simp only [decode_fields, fits]
    have := ta_col_length (id_ptr_of id_str_raw)
    omega
  · simp only [decode_fields]
    rcases pci_col_cases (data_extract data_start_ptr).data_int_list
      with e | e | e | e | e <;> rw [e] <;> decide
  · simp only [decode_fields]
    rw [sid_col_eq]
    have h1 : fits 3 (sprintf_02X (arr_get (data_extract data_start_ptr).data_int_list 1)) := by
      rw [hd]; exact h _ (by rw [hx]; simp [arr_get])
    have h2 : fits 3 (sprintf_02X (arr_get (data_extract data_start_ptr).data_int_list 2)) := by
      rw [hd]; exact h _ (by rw [hx]; simp [arr_get])
    split
    · exact h1
    · split
      · exact h2
      · decide

/-! ## TA, PCI and SID on lines whose writes stay inside the arrays -/

/-- C3, for every identifier token and data region none of whose writes
goes past its array, with `t` the normalized `id_ptr`: when `t` has length 8
and begins with `18`, TA is characters 6-7 if characters 4-5 are `F1`, else
characters 4-5 if characters 6-7 are `F1`, else empty; when `t` has length
3, TA is `t`; otherwise TA is empty.  And the code at the line with
identifier `7E0` and data `02 -1 00 ...`: the value of the token `-1` is
4294967295, line 204 writes its text `FFFFFFFF` and a NUL, 9 bytes, to the
3 bytes of `sid_col`, which is declared next to `pci_col` and `ta_col`, so
that the TA printed for this line is not determined by its identifier. -/
theorem ta_col_rule (id_str_raw data_start_ptr : List Char)
    (h : no_overrun id_str_raw data_start_ptr) :
    ((decode_fields id_str_raw data_start_ptr).ta_col =
      if ((decode_fields id_str_raw data_start_ptr).id_ptr).length = 8
          ∧ "18".toList <+: (decode_fields id_str_raw data_start_ptr).id_ptr then
        if (((decode_fields id_str_raw data_start_ptr).id_ptr).drop 4).take 2 = "F1".toList then
          (((decode_fields id_str_raw data_start_ptr).id_ptr).drop 6).take 2
        else if (((decode_fields id_str_raw data_start_ptr).id_ptr).drop 6).take 2
            = "F1".toList then
          (((decode_fields id_str_raw data_start_ptr).id_ptr).drop 4).take 2
        else []
      else if ((decode_fields id_str_raw data_start_ptr).id_ptr).length = 3 then
        (decode_fields id_str_raw data_start_ptr).id_ptr
      else [])
    ∧ run_line "0.100000 1 7E0 Rx   d 8 02 -1 00 00 00 00 00 00\n".toList = Outcome.overrun
    ∧ (decode_fields "7E0".toList "02 -1 00 00 00 00 00 00\n".toList).data_int_list
        = [2, 4294967295, 0, 0, 0, 0, 0, 0]
    ∧ (decode_fields "7E0".toList "02 -1 00 00 00 00 00 00\n".toList).sid_col
        = "FFFFFFFF".toList
    ∧ ¬ fits 3 "FFFFFFFF".toList := by
  have _ := h
  refine ⟨?_, by decide, by decide, by decide, by decide⟩
  simp only [decode_fields]
  exact ta_col_positions (id_ptr_of id_str_raw)

/-- Witness of C3 on the identifiers 18DAF100 and 18DA00F1 with the data of
scenario 2: both give TA `00`; identifier 7E0 gives TA `7E0`. -/
theorem ta_col_rule_witness :
    no_overrun "18DAF100".toList "02 10 01 00 00 00 00 00\n".toList
    ∧ (decode_fields "18DAF100".toList "02 10 01 00 00 00 00 00\n".toList).ta_col = "00".toList
    ∧ (decode_fields "18DA00F1".toList "02 10 01 00 00 00 00 00\n".toList).ta_col = "00".toList
    ∧ (decode_fields "7E0".toList "02 10 01 00 00 00 00 00\n".toList).ta_col = "7E0".toList :=
  ⟨by decide,
    (ta_col_rule "18DAF100".toList "02 10 01 00 00 00 00 00\n".toList (by decide)).1.trans
      (by decide),
    by decide, by decide⟩

/-- C4, for every identifier token and data region none of whose writes
goes past its array: there is a `data[0]`, and the PCI column is decided by
its bits 4..7: 0 gives `SF`, 1 gives `FF`, 2 gives `CF`, 3 gives `FC`, every
value from 4 to 15 gives the empty string.  And the code at the line with
data `02 -1 00 ...`: bits 4..7 of `data[0]` are 0 and line 191 writes `SF`,
then line 204 writes 9 bytes to the 3 bytes of `sid_col`, declared next to
`pci_col`, so that the PCI printed for this line is not determined by
`data[0]`. -/
theorem pci_col_rule (id_str_raw data_start_ptr : List Char)
    (h : no_overrun id_str_raw data_start_ptr) :
    (∃ d0, (decode_fields id_str_raw data_start_ptr).data_int_list[0]? = some d0
      ∧ (d0 / 16) % 16 < 16
      ∧ (decode_fields id_str_raw data_start_ptr).pci_col =
          if (d0 / 16) % 16 = 0 then "SF".toList
          else if (d0 / 16) % 16 = 1 then "FF".toList
          else if (d0 / 16) % 16 = 2 then "CF".toList
          else if (d0 / 16) % 16 = 3 then "FC".toList
          else [])
    ∧ (decode_fields "7E0".toList "02 -1 00 00 00 00 00 00\n".toList).data_int_list[0]?
        = some 2
    ∧ strcmp (pci_col (data_extract "02 -1 00 00 00 00 00 00\n".toList).data_int_list)
        "SF".toList = 0
    ∧ ¬ fits 3 (sprintf_02X
          (arr_get (data_extract "02 -1 00 00 00 00 00 00\n".toList).data_int_list 1))
    ∧ ¬ no_overrun "7E0".toList "02 -1 00 00 00 00 00 00\n".toList := by
  have _ := h
  refine ⟨?_, by decide, by decide, by decide, by decide⟩
  obtain ⟨d0, d1, d2, rest, h, -⟩ := data_extract_first_three data_start_ptr
  refine ⟨d0, ?_, Nat.mod_lt _ (by decide), ?_⟩
  · simp [decode_fields, h]
  · simp only [decode_fields]
    rw [pci_col_eq, h]
    rfl

/-- Witness of C4: the data of scenario 2 gives `SF`; first bytes `10`,
`21`, `30` and `40` give `FF`, `CF`, `FC` and the empty string. -/
theorem pci_col_rule_witness :
    no_overrun "7E0".toList "02 10 01 00 00 00 00 00\n".toList
    ∧ (∃ d0, (decode_fields "7E0".toList "02 10 01 00 00 00 00 00\n".toList).data_int_list[0]?
          = some d0
        ∧ (d0 / 16) % 16 < 16
        ∧ (decode_fields "7E0".toList "02 10 01 00 00 00 00 00\n".toList).pci_col =
            if (d0 / 16) % 16 = 0 then "SF".toList
            else if (d0 / 16) % 16 = 1 then "FF".toList
            else if (d0 / 16) % 16 = 2 then "CF".toList
            else if (d0 / 16) % 16 = 3 then "FC".toList
            else [])
    ∧ (decode_fields "7E0".toList "02 10 01 00 00 00 00 00\n".toList).pci_col = "SF".toList
    ∧ (decode_fields "7E0".toList "10 14 2E F1 90 00 00 00\n".toList).pci_col = "FF".toList
    ∧ (decode_fields "7E0".toList "21 00 00 00 00 00 00 00\n".toList).pci_col = "CF".toList
    ∧ (decode_fields "7E0".toList "30 00 00 00 00 00 00 00\n".toList).pci_col = "FC".toList
    ∧ (decode_fields "7E0".toList "40 00 00 00 00 00 00 00\n".toList).pci_col = [] :=
  ⟨by decide,
    (pci_col_rule "7E0".toList "02 10 01 00 00 00 00 00\n".toList (by decide)).1,
    by decide, by decide, by decide, by decide, by decide⟩

/-- C5, for every identifier token and data region none of whose writes
goes past its array: when PCI is `SF` the SID column is the `%02X` text of
`data[1]`, which is the text of column Data2; when PCI is `FF` it is the
`%02X` text of `data[2]`, which is the text of column Data3; otherwise it
is empty.  And the code at the line with data `02 -1 00 ...`: PCI is `SF`,
`data[1]` is 4294967295 and its text `FFFFFFFF` is written with a NUL both
to the 3 bytes of row 1 of `data_hex_list_formatted` (line 135), where the
write of row 2 then changes it, and to the 3 bytes of `sid_col` (line 204):
neither array holds the text, and the two columns need not agree. -/
theorem sid_col_rule (id_str_raw data_start_ptr : List Char)
    (h : no_overrun id_str_raw data_start_ptr) :
    (∃ d1 d2,
      (decode_fields id_str_raw data_start_ptr).data_int_list[1]? = some d1
      ∧ (decode_fields id_str_raw data_start_ptr).data_int_list[2]? = some d2
      ∧ (decode_fields id_str_raw data_start_ptr).data_hex_list_formatted[1]?
          = some (sprintf_02X d1)
      ∧ (decode_fields id_str_raw data_start_ptr).data_hex_list_formatted[2]?
          = some (sprintf_02X d2)
      ∧ (decode_fields id_str_raw data_start_ptr).sid_col =
          if (decode_fields id_str_raw data_start_ptr).pci_col = "SF".toList then sprintf_02X d1
          else if (decode_fields id_str_raw data_start_ptr).pci_col = "FF".toList then
            sprintf_02X d2
          else [])
    ∧ (decode_fields "7E0".toList "02 -1 00 00 00 00 00 00\n".toList).pci_col = "SF".toList
    ∧ (decode_fields "7E0".toList "02 -1 00 00 00 00 00 00\n".toList).data_int_list[1]?
        = some 4294967295
    ∧ sprintf_02X 4294967295 = "FFFFFFFF".toList
    ∧ ¬ fits 3 (sprintf_02X 4294967295)
    ∧ ¬ fields_fit (decode_fields "7E0".toList "02 -1 00 00 00 00 00 00\n".toList)
    ∧ ¬ fields_fit (decode_fields "7E0".toList "10 14 -1 00 00 00 00 00\n".toList) := by
  have _ := h
  refine ⟨?_, by decide, by decide, by decide, by decide, by decide, by decide⟩
  obtain ⟨d0, d1, d2, rest, h, hx⟩ := data_extract_first_three data_start_ptr
  refine ⟨d1, d2, by simp [decode_fields, h], by simp [decode_fields, h],
    by simp [decode_fields, hx], by simp [decode_fields, hx], ?_⟩
  simp only [decode_fields]
  rw [sid_col_eq]
  have e1 : arr_get (data_extract data_start_ptr).data_int_list 1 = d1 := by rw [h]; rfl
  have e2 : arr_get (data_extract data_start_ptr).data_int_list 2 = d2 := by rw [h]; rfl
  rw [e1, e2]

/-- Witness of C5: data `02 10 01 ...` gives SID `10`, data `06 50 01 ...`
gives SID `50`, data `10 14 2E ...` (PCI `FF`) gives SID `2E`, each the text
of the data column it is read from. -/
theorem sid_col_rule_witness :
    no_overrun "7E0".toList "02 10 01 00 00 00 00 00\n".toList
    ∧ (∃ d1 d2,
      (decode_fields "7E0".toList "02 10 01 00 00 00 00 00\n".toList).data_int_list[1]? = some d1
      ∧ (decode_fields "7E0".toList "02 10 01 00 00 00 00 00\n".toList).data_int_list[2]?
          = some d2
      ∧ (decode_fields "7E0".toList "02 10 01 00 00 00 00 00\n".toList).data_hex_list_formatted[1]?
          = some (sprintf_02X d1)
      ∧ (decode_fields "7E0".toList "02 10 01 00 00 00 00 00\n".toList).data_hex_list_formatted[2]?
          = some (sprintf_02X d2)
      ∧ (decode_fields "7E0".toList "02 10 01 00 00 00 00 00\n".toList).sid_col =
          if (decode_fields "7E0".toList "02 10 01 00 00 00 00 00\n".toList).pci_col
              = "SF".toList then sprintf_02X d1
          else if (decode_fields "7E0".toList "02 10 01 00 00 00 00 00\n".toList).pci_col
              = "FF".toList then sprintf_02X d2
          else [])
    ∧ (decode_fields "7E0".toList "02 10 01 00 00 00 00 00\n".toList).sid_col = "10".toList
    ∧ (decode_fields "7E0".toList "02 10 01 00 00 00 00 00\n".toList).data_hex_list_formatted[1]?
        = some "10".toList
    ∧ (decode_fields "7E8".toList "06 50 01 00 00 00 00 00\n".toList).sid_col = "50".toList
    ∧ (decode_fields "7E0".toList "10 14 2E F1 90 00 00 00\n".toList).sid_col = "2E".toList
    ∧ (decode_fields "7E0".toList "10 14 2E F1 90 00 00 00\n".toList).data_hex_list_formatted[2]?
        = some "2E".toList
    ∧ (decode_fields "7E0".toList "21 14 2E F1 90 00 00 00\n".toList).sid_col = [] :=
  ⟨by decide,
    (sid_col_rule "7E0".toList "02 10 01 00 00 00 00 00\n".toList (by decide)).1,
    by decide, by decide, by decide, by decide, by decide, by decide⟩

/-- C6, for every identifier token and data region none of whose writes
goes past its array: a non-empty SID column comes with a PCI column that is
`SF` or `FF`.  And the code at the line with data `02 -1 00 ...`: the SID
text is not empty and has 8 characters, written with a NUL to the 3 bytes
of `sid_col`, which is declared next to `pci_col`: the PCI printed with the
SID of this line is not determined by the source. -/
theorem sid_nonempty_pci (id_str_raw data_start_ptr : List Char)
    (hfit : no_overrun id_str_raw data_start_ptr)
    (h : (decode_fields id_str_raw data_start_ptr).sid_col ≠ []) :
    ((decode_fields id_str_raw data_start_ptr).pci_col = "SF".toList
      ∨ (decode_fields id_str_raw data_start_ptr).pci_col = "FF".toList)
    ∧ (decode_fields "7E0".toList "02 -1 00 00 00 00 00 00\n".toList).sid_col ≠ []
    ∧ ((decode_fields "7E0".toList "02 -1 00 00 00 00 00 00\n".toList).sid_col).length = 8
    ∧ ¬ fits 3 (decode_fields "7E0".toList "02 -1 00 00 00 00 00 00\n".toList).sid_col := by
  have _ := hfit
  refine ⟨?_, by decide, by decide, by decide⟩
  simp only [decode_fields] at h ⊢
  rw [sid_col_eq] at h
  by_cases h1 : pci_col (data_extract data_start_ptr).data_int_list = "SF".toList
  · exact Or.inl h1
  · by_cases h2 : pci_col (data_extract data_start_ptr).data_int_list = "FF".toList
    · exact Or.inr h2
    · rw [if_neg h1, if_neg h2] at h
      exact absurd rfl h

/-- Witness of C6 on the line of scenario 2: SID is `10`, PCI is `SF`; with
PCI `CF`, `FC` or empty the SID is empty. -/
theorem sid_nonempty_pci_witness :
    no_overrun "7E0".toList "02 10 01 00 00 00 00 00\n".toList
    ∧ (decode_fields "7E0".toList "02 10 01 00 00 00 00 00\n".toList).sid_col ≠ []
    ∧ ((decode_fields "7E0".toList "02 10 01 00 00 00 00 00\n".toList).pci_col = "SF".toList
      ∨ (decode_fields "7E0".toList "02 10 01 00 00 00 00 00\n".toList).pci_col = "FF".toList)
    ∧ (decode_fields "7E0".toList "21 10 01 00 00 00 00 00\n".toList).sid_col = []
    ∧ (decode_fields "7E0".toList "30 10 01 00 00 00 00 00\n".toList).sid_col = []
    ∧ (decode_fields "7E0".toList "40 10 01 00 00 00 00 00\n".toList).sid_col = [] :=
  ⟨by decide, by decide,
    (sid_nonempty_pci "7E0".toList "02 10 01 00 00 00 00 00\n".toList (by decide)
      (by decide)).1,
    by decide, by decide, by decide⟩

/-! ## Identifier Normalizer on tokens that fit `id_str_raw` -/

/-- C11 as amended, for every identifier token that fits `id_str_raw` (at
most 31 bytes) on a line none of whose writes goes past its array: `id_ptr`
never ends with `x`; it ends with `X` exactly when the upper-case token ends
with `XX` (one final `X` is removed, not more); so a token with at most one
trailing x/X gives an `id_ptr` that does not end with `X`. -/
theorem id_ptr_last_char (id_str_raw data_start_ptr : List Char)
    (h : no_overrun id_str_raw data_start_ptr) :
    ((decode_fields id_str_raw data_start_ptr).id_ptr).getLast? ≠ some 'x'
    ∧ (((decode_fields id_str_raw data_start_ptr).id_ptr).getLast? = some 'X'
        ↔ ['X', 'X'] <:+ to_upper id_str_raw)
    ∧ ((to_upper id_str_raw).dropLast.getLast? ≠ some 'X' →
        ((decode_fields id_str_raw data_start_ptr).id_ptr).getLast? ≠ some 'X') := by
  have _ := h
  simp only [decode_fields]
  rcases id_ptr_of_cases id_str_raw with ⟨p, hp, hid⟩ | ⟨hlast, hid⟩
  · have hx : p.getLast? ≠ some 'x' := by
      intro h
      have hm : 'x' ∈ to_upper id_str_raw := by
        rw [hp]
        exact List.mem_append_left _ (List.mem_of_getLast?_eq_some h)
      exact to_upper_mem_ne_x id_str_raw 'x' hm rfl
    have hiff : p.getLast? = some 'X' ↔ ['X', 'X'] <:+ to_upper id_str_raw := by
      rw [hp]
      constructor
      · intro h
        obtain ⟨q, rfl⟩ := List.getLast?_eq_some_iff.mp h
        exact ⟨q, by simp⟩
      · rintro ⟨t, ht⟩
        have : t ++ ['X'] = p := by
          have h2 : (t ++ ['X']) ++ ['X'] = p ++ ['X'] := by simpa using ht
          exact List.append_cancel_right h2
        rw [← this]
        exact List.getLast?_concat t
    refine ⟨by rw [hid]; exact hx, by rw [hid]; exact hiff, ?_⟩
    intro h
    rw [hid]
    rw [hp, List.dropLast_concat] at h
    exact h
  · have hx : (to_upper id_str_raw).getLast? ≠ some 'x' := by
      intro h
      exact to_upper_mem_ne_x id_str_raw 'x' (List.mem_of_getLast?_eq_some h) rfl
    refine ⟨by rw [hid]; exact hx, ?_, fun _ => by rw [hid]; exact hlast⟩
    rw [hid]
    constructor
    · intro h; exact absurd h hlast
    · rintro ⟨t, ht⟩
      exfalso
      apply hlast
      rw [← ht]
      have : t ++ ['X', 'X'] = (t ++ ['X']) ++ ['X'] := by simp
      rw [this]
      exact List.getLast?_concat _

/-- Witness of C11 as amended on the token `18daf100x` with the data of
scenario 2: `id_ptr` is `18DAF100`. -/
theorem id_ptr_last_char_witness :
    no_overrun "18daf100x".toList "02 10 01 00 00 00 00 00\n".toList
    ∧ (decode_fields "18daf100x".toList "02 10 01 00 00 00 00 00\n".toList).id_ptr
        = "18DAF100".toList
    ∧ ((decode_fields "18daf100x".toList "02 10 01 00 00 00 00 00\n".toList).id_ptr).getLast?
        ≠ some 'x'
    ∧ ((decode_fields "18daf100x".toList "02 10 01 00 00 00 00 00\n".toList).id_ptr).getLast?
        ≠ some 'X' :=
  ⟨by decide, by decide,
    (id_ptr_last_char "18daf100x".toList "02 10 01 00 00 00 00 00\n".toList (by decide)).1,
    (id_ptr_last_char "18daf100x".toList "02 10 01 00 00 00 00 00\n".toList (by decide)).2.2
      (by decide)⟩

/-- C11 fails for a token that ends with two x/X characters: token `7E0xx`
gives `id_ptr` `7E0X`, which ends with `X`.  The token has 5 bytes and the
line it stands on gives a record with every write inside its array. -/
theorem id_ptr_double_x :
    id_ptr_of "7E0xx".toList = "7E0X".toList
    ∧ (id_ptr_of "7E0xx".toList).getLast? = some 'X'
    ∧ (id_ptr_of "18DAF100XX".toList).getLast? = some 'X'
    ∧ no_overrun "7E0xx".toList "02 10 01 00 00 00 00 00\n".toList
    ∧ run_line "0.100000 1 7E0xx Rx   d 8 02 10 01 00 00 00 00 00\n".toList
        = Outcome.record ⟨"0.100000".toList,
            decode_fields "7E0xx".toList "02 10 01 00 00 00 00 00\n".toList⟩
    ∧ (decode_fields "7E0xx".toList "02 10 01 00 00 00 00 00\n".toList).id_ptr
        = "7E0X".toList := by
  refine ⟨by decide, by decide, by decide, by decide, by decide, by decide⟩

/-- C12, for every identifier token that fits `id_str_raw` (at most 31
bytes) on a line none of whose writes goes past its array: `id_ptr` is the
token with every letter a-z in upper case and then one final `X` removed if
present; when `id_ptr` consists of 1 to 8 base-16 digits `id_int_val` is its
base-16 value; tokens that fit and have the same upper-case form give the
same `id_ptr` and `id_int_val`, and so does a token with one `x` or `X`
added at its end.  And the code at a token of 32 base-16 digits: `sscanf`
has no field width in `%s` and writes the 32 bytes and a NUL to the 32 bytes
of `id_str_raw`, so that the text printed as ID is not determined by the
token. -/
theorem id_normalize_rule (id_str_raw data_start_ptr : List Char)
    (h : no_overrun id_str_raw data_start_ptr) :
    ((∃ p, id_str_raw.map Char.toUpper = p ++ ['X']
          ∧ (decode_fields id_str_raw data_start_ptr).id_ptr = p)
      ∨ ((id_str_raw.map Char.toUpper).getLast? ≠ some 'X'
          ∧ (decode_fields id_str_raw data_start_ptr).id_ptr = id_str_raw.map Char.toUpper))
    ∧ ((∀ c ∈ (decode_fields id_str_raw data_start_ptr).id_ptr, (hexval c).isSome = true) →
        1 ≤ ((decode_fields id_str_raw data_start_ptr).id_ptr).length →
        ((decode_fields id_str_raw data_start_ptr).id_ptr).length ≤ 8 →
        (decode_fields id_str_raw data_start_ptr).id_int_val
          = spec_hex_value (decode_fields id_str_raw data_start_ptr).id_ptr)
    ∧ (∀ other : List Char, no_overrun other data_start_ptr →
        other.map Char.toUpper = id_str_raw.map Char.toUpper →
        (decode_fields other data_start_ptr).id_ptr
            = (decode_fields id_str_raw data_start_ptr).id_ptr
        ∧ (decode_fields other data_start_ptr).id_int_val
            = (decode_fields id_str_raw data_start_ptr).id_int_val)
    ∧ ((id_str_raw.map Char.toUpper).getLast? ≠ some 'X' →
        no_overrun (id_str_raw ++ ['x']) data_start_ptr →
        no_overrun (id_str_raw ++ ['X']) data_start_ptr →
        (decode_fields (id_str_raw ++ ['x']) data_start_ptr).id_ptr
            = (decode_fields id_str_raw data_start_ptr).id_ptr
        ∧ (decode_fields (id_str_raw ++ ['X']) data_start_ptr).id_ptr
            = (decode_fields id_str_raw data_start_ptr).id_ptr
        ∧ (decode_fields (id_str_raw ++ ['x']) data_start_ptr).id_int_val
            = (decode_fields id_str_raw data_start_ptr).id_int_val
        ∧ (decode_fields (id_str_raw ++ ['X']) data_start_ptr).id_int_val
            = (decode_fields id_str_raw data_start_ptr).id_int_val)
    ∧ ("18DAF10018DAF10018DAF10018DAF100".toList).length = 32
    ∧ ¬ fits 32 "18DAF10018DAF10018DAF10018DAF100".toList
    ∧ (scan_lf "0.100000 1 18DAF10018DAF10018DAF10018DAF100 Rx   d 8 02 10 01 00 00 00 00 00\n".toList
        ).bind (fun p => (scan_d p.2).bind (fun q => (scan_s q.2).map (fun r => r.1)))
        = some "18DAF10018DAF10018DAF10018DAF100".toList
    ∧ run_line
        "0.100000 1 18DAF10018DAF10018DAF10018DAF100 Rx   d 8 02 10 01 00 00 00 00 00\n".toList
        = Outcome.overrun := by
  have _ := h
  refine ⟨?_, ?_, ?_, ?_, by decide, by decide, by decide, by decide⟩
  · have h := id_ptr_of_cases id_str_raw
    rw [to_upper_eq_map_toUpper] at h
    simpa only [decode_fields] using h
  · simp only [decode_fields]
    intro h h1 h8
    exact id_int_val_hex _ h h1 h8
  · intro other _ h
    have e : id_ptr_of other = id_ptr_of id_str_raw := by
      unfold id_ptr_of
      rw [to_upper_eq_map_toUpper, to_upper_eq_map_toUpper, h]
    simp only [decode_fields, e, and_self]
  · intro h _ _
    have e0 : id_ptr_of id_str_raw = to_upper id_str_raw := by
      rcases id_ptr_of_cases id_str_raw with ⟨p, hp, -⟩ | ⟨-, hid⟩
      · exfalso
        apply h
        rw [← to_upper_eq_map_toUpper, hp]
        exact List.getLast?_concat p
      · exact hid
    have e1 : id_ptr_of (id_str_raw ++ ['x']) = id_ptr_of id_str_raw := by
      rw [e0]; exact id_ptr_of_append_X id_str_raw 'x' (by decide)
    have e2 : id_ptr_of (id_str_raw ++ ['X']) = id_ptr_of id_str_raw := by
      rw [e0]; exact id_ptr_of_append_X id_str_raw 'X' (by decide)
    simp only [decode_fields, e1, e2, and_self]

/-- Witness of C12 on the token `18daf100` with the data of scenario 2: the
tokens `18daf100`, `18DAF100`, `18daf100x` and `18daf100X` all give `id_ptr`
`18DAF100` and `id_int_val` 0x18DAF100; token `7E0` gives 0x7E0. -/
theorem id_normalize_rule_witness :
    no_overrun "18daf100".toList "02 10 01 00 00 00 00 00\n".toList
    ∧ (decode_fields "18daf100".toList "02 10 01 00 00 00 00 00\n".toList).id_ptr
        = "18DAF100".toList
    ∧ (decode_fields "18daf100".toList "02 10 01 00 00 00 00 00\n".toList).id_int_val
        = 0x18DAF100
    ∧ ((decode_fields "18DAF100".toList "02 10 01 00 00 00 00 00\n".toList).id_ptr
          = (decode_fields "18daf100".toList "02 10 01 00 00 00 00 00\n".toList).id_ptr
        ∧ (decode_fields "18DAF100".toList "02 10 01 00 00 00 00 00\n".toList).id_int_val
          = (decode_fields "18daf100".toList "02 10 01 00 00 00 00 00\n".toList).id_int_val)
    ∧ ((decode_fields ("18daf100".toList ++ ['x']) "02 10 01 00 00 00 00 00\n".toList).id_ptr
          = (decode_fields "18daf100".toList "02 10 01 00 00 00 00 00\n".toList).id_ptr
        ∧ (decode_fields ("18daf100".toList ++ ['X']) "02 10 01 00 00 00 00 00\n".toList).id_ptr
          = (decode_fields "18daf100".toList "02 10 01 00 00 00 00 00\n".toList).id_ptr
        ∧ (decode_fields ("18daf100".toList ++ ['x']) "02 10 01 00 00 00 00 00\n".toList
            ).id_int_val
          = (decode_fields "18daf100".toList "02 10 01 00 00 00 00 00\n".toList).id_int_val
        ∧ (decode_fields ("18daf100".toList ++ ['X']) "02 10 01 00 00 00 00 00\n".toList
            ).id_int_val
          = (decode_fields "18daf100".toList "02 10 01 00 00 00 00 00\n".toList).id_int_val)
    ∧ (decode_fields "7E0".toList "02 10 01 00 00 00 00 00\n".toList).id_int_val = 0x7E0 :=
  ⟨by decide, by decide, by decide,
    (id_normalize_rule "18daf100".toList "02 10 01 00 00 00 00 00\n".toList (by decide)).2.2.1
      "18DAF100".toList (by decide) (by decide),
    (id_normalize_rule "18daf100".toList "02 10 01 00 00 00 00 00\n".toList (by decide)).2.2.2.1
      (by decide) (by decide) (by decide),
    by decide⟩

/-! ## A line in the form of the trace format gives one record -/

/-- C14, for every line `<decimal number> <integer> <id> Rx   d <integer>
<b1> ... <b8>` with single spaces, as `fgets` returns it (at most 255 bytes),
the decimal number being digits with or without a point and digits after
them, the id a non-empty run of base-16 digits with an optional `x` or `X`
after it that fits `id_str_raw` (at most 31 bytes), each `bi` two base-16
digits, ended by a newline: every write stays inside its array and the line
gives one record, whose ID column is the digits of the id in upper case and
whose columns Data1..Data8 are `b1`..`b8` in upper case, in order; the
output for this line alone is the header and that one row.  And the code at
a line of this form whose id has 32 base-16 digits: `%s` has no field width
and `sscanf` writes 33 bytes to the 32 bytes of `id_str_raw`. -/
theorem standard_line_record (ip fr ch hx sfx cnt : List Char) (bs : List (List Char))
    (hip : ∀ c ∈ ip, isdigit c = true)
    (hfr : fr = [] ∨ ∃ fp, fr = '.' :: fp ∧ ∀ c ∈ fp, isdigit c = true)
    (hd : ip ≠ [] ∨ 2 ≤ fr.length)
    (hch : is_integer_text ch = true)
    (hxne : hx ≠ []) (hhx : ∀ c ∈ hx, isxdigit c = true)
    (hsfx : sfx = [] ∨ sfx = ['x'] ∨ sfx = ['X'])
    (hidfit : fits 32 (hx ++ sfx))
    (hcnt : is_integer_text cnt = true)
    (hbs : bs.length = 8) (hb : ∀ b ∈ bs, b.length = 2 ∧ ∀ c ∈ b, isxdigit c = true)
    (hlen : (standard_line (ip ++ fr) ch (hx ++ sfx) cnt
        (List.intercalate [' '] bs ++ ['\n'])).length ≤ 255) :
    (∃ d, run_line (standard_line (ip ++ fr) ch (hx ++ sfx) cnt
          (List.intercalate [' '] bs ++ ['\n'])) = Outcome.record d
      ∧ d.time_item = ip ++ fr
      ∧ d.fields.id_ptr = to_upper hx
      ∧ d.fields.data_hex_list_formatted = bs.map to_upper
      ∧ ∀ fmt_6f : List Char → List Char,
          main_output fmt_6f [standard_line (ip ++ fr) ch (hx ++ sfx) cnt
              (List.intercalate [' '] bs ++ ['\n'])]
            = HEADER ++ snprintf_row (fmt_6f (ip ++ fr)) d.fields)
    ∧ ("0.100000 1 0123456789ABCDEF0123456789ABCDEF Rx   d 8 02 10 01 00 00 00 00 00\n".toList
        ).length = 77
    ∧ ¬ fits 32 "0123456789ABCDEF0123456789ABCDEF".toList
    ∧ sscanf_fit
        "0.100000 1 0123456789ABCDEF0123456789ABCDEF Rx   d 8 02 10 01 00 00 00 00 00\n".toList
        = false
    ∧ run_line
        "0.100000 1 0123456789ABCDEF0123456789ABCDEF Rx   d 8 02 10 01 00 00 00 00 00\n".toList
        = Outcome.overrun := by
  refine ⟨?_, by decide, by decide, by decide, by decide⟩
  have hidne : hx ++ sfx ≠ [] := by simp [hxne]
  have hid : ∀ c ∈ hx ++ sfx, isspace c = false := by
    intro c hc
    rcases List.mem_append.mp hc with h | h
    · obtain ⟨d, hd⟩ := Option.isSome_iff_exists.mp (hhx c h)
      exact hexval_not_space c d hd
    · rcases hsfx with rfl | rfl | rfl
      · simp at h
      · simp only [List.mem_singleton] at h; subst h; decide
      · simp only [List.mem_singleton] at h; subst h; decide
  have hdec := decode_line_standard ip fr ch (hx ++ sfx) cnt
    (List.intercalate [' '] bs ++ ['\n']) hip hfr hd hch hidne hid hcnt hlen
  have hscan := sscanf_line_standard ip fr ch (hx ++ sfx) cnt
    (List.intercalate [' '] bs ++ ['\n']) hip hfr hd hch hidne hid hcnt
  have hsfit : sscanf_fit (standard_line (ip ++ fr) ch (hx ++ sfx) cnt
      (List.intercalate [' '] bs ++ ['\n'])) = true := by
    rw [sscanf_fit_of_some _ _ hscan]
    have h4 : fits 4 ['R', 'x'] := by decide
    have h2 : fits 2 ['d'] := by decide
    simp [hidfit, h4, h2]
  have hdata := data_extract_eight bs hbs hb
  have hffit : fields_fit (decode_fields (hx ++ sfx) (List.intercalate [' '] bs ++ ['\n'])) := by
    apply fields_fit_of_rows
    intro t ht
    rw [hdata, List.mem_map] at ht
    obtain ⟨b, hbm, rfl⟩ := ht
    simp only [fits, to_upper, List.length_map, (hb b hbm).1]
    omega
  refine ⟨_, (run_line_record _ _).mpr ⟨hdec, hsfit, hffit⟩, rfl, ?_, ?_, ?_⟩
  · simp only [decode_fields]
    exact id_ptr_of_hex hx sfx hhx hsfx
  · simp only [decode_fields]
    exact hdata
  · intro fmt_6f
    exact main_output_single fmt_6f _ _ hdec

/-- Witness of C14, the line of scenario 2: ID `7E0`, Phy `-1`, Dir `Req`,
TA `7E0`, PCI `SF`, SID `10`, data `02 10 01 00 00 00 00 00`; the same with
the time written `12` and the id written `7e0x`. -/
theorem standard_line_record_witness :
    (∃ d, run_line (standard_line ("0".toList ++ ".100000".toList) "1".toList
          ("7E0".toList ++ []) "8".toList
          (List.intercalate [' '] ["02".toList, "10".toList, "01".toList, "00".toList,
            "00".toList, "00".toList, "00".toList, "00".toList] ++ ['\n'])) = Outcome.record d
      ∧ d.time_item = "0".toList ++ ".100000".toList
      ∧ d.fields.id_ptr = to_upper "7E0".toList
      ∧ d.fields.data_hex_list_formatted
          = ["02".toList, "10".toList, "01".toList, "00".toList,
            "00".toList, "00".toList, "00".toList, "00".toList].map to_upper
      ∧ ∀ fmt_6f : List Char → List Char,
          main_output fmt_6f [standard_line ("0".toList ++ ".100000".toList) "1".toList
              ("7E0".toList ++ []) "8".toList
              (List.intercalate [' '] ["02".toList, "10".toList, "01".toList, "00".toList,
                "00".toList, "00".toList, "00".toList, "00".toList] ++ ['\n'])]
            = HEADER ++ snprintf_row (fmt_6f ("0".toList ++ ".100000".toList)) d.fields)
    ∧ run_line "0.100000 1 7E0 Rx   d 8 02 10 01 00 00 00 00 00\n".toList
        = Outcome.record ⟨"0.100000".toList,
            { id_ptr := "7E0".toList, id_int_val := 0x7E0,
              data_int_list := [2, 16, 1, 0, 0, 0, 0, 0],
              data_hex_list_formatted := ["02".toList, "10".toList, "01".toList, "00".toList,
                "00".toList, "00".toList, "00".toList, "00".toList],
              phy_col := "-1".toList, dir_col := "Req".toList, ta_col := "7E0".toList,
              pci_col := "SF".toList, sid_col := "10".toList }⟩
    ∧ snprintf_row "0.100000".toList
          (decode_fields "7E0".toList "02 10 01 00 00 00 00 00\n".toList)
        = "0.100000,7E0,-1,Req,7E0,SF,10,02,10,01,00,00,00,00,00\n".toList
    ∧ run_line "12 1 7e0x Rx   d 8 02 10 01 00 00 00 00 00\n".toList
        = Outcome.record ⟨"12".toList,
            decode_fields "7E0".toList "02 10 01 00 00 00 00 00\n".toList⟩ :=
  ⟨(standard_line_record "0".toList ".100000".toList "1".toList "7E0".toList [] "8".toList
      ["02".toList, "10".toList, "01".toList, "00".toList,
        "00".toList, "00".toList, "00".toList, "00".toList]
      (by decide) (Or.inr ⟨"100000".toList, rfl, by decide⟩) (Or.inl (by decide)) (by decide)
      (by decide) (by decide) (Or.inl rfl) (by decide) (by decide) (by decide) (by decide)
      (by decide)).1,
    by decide, by decide, by decide⟩

/-! ## Which lines give a record -/

/-- C20, the code at an accepted line with two spaces between `d` and the
byte count: the data region starts at the first space after the marker
(line 101), so the count is its first token, while `sscanf` on the same
line reads the count as the integer after `d`.  With count `8` that token
has length 1 and takes no slot; with count `12` it has length 2 and becomes
Data1.  The two lines differ in the count token only, every write stays
inside its array on both, and they give different rows.  With one space
after `d` the count is no part of the data region: counts `2` and `8` and
channels `1` and `12` give the same record, and a line that declares `d 2`
gives 8 data bytes. -/
theorem count_token_as_data :
    (decode_line "0.100000 1 7E0 Rx   d  8 02 10 01 00 00 00 00 00\n".toList).map
        (fun d => d.fields.data_hex_list_formatted)
      = some ["02".toList, "10".toList, "01".toList, "00".toList, "00".toList, "00".toList,
          "00".toList, "00".toList]
    ∧ (decode_line "0.100000 1 7E0 Rx   d  12 02 10 01 00 00 00 00 00\n".toList).map
        (fun d => d.fields.data_hex_list_formatted)
      = some ["12".toList, "02".toList, "10".toList, "01".toList, "00".toList, "00".toList,
          "00".toList, "00".toList]
    ∧ spec_ws_tokens "0.100000 1 7E0 Rx   d  12 02 10 01 00 00 00 00 00\n".toList
      = (spec_ws_tokens "0.100000 1 7E0 Rx   d  8 02 10 01 00 00 00 00 00\n".toList).set 5
          "12".toList
    ∧ (spec_ws_tokens "0.100000 1 7E0 Rx   d  8 02 10 01 00 00 00 00 00\n".toList)[5]?
      = some "8".toList
    ∧ row_of_line (fun t => t) "0.100000 1 7E0 Rx   d  12 02 10 01 00 00 00 00 00\n".toList
      ≠ row_of_line (fun t => t) "0.100000 1 7E0 Rx   d  8 02 10 01 00 00 00 00 00\n".toList
    ∧ run_line "0.100000 1 7E0 Rx   d  12 02 10 01 00 00 00 00 00\n".toList
      = Outcome.record ⟨"0.100000".toList,
          decode_fields "7E0".toList "12 02 10 01 00 00 00 00 00\n".toList⟩
    ∧ run_line "0.100000 1 7E0 Rx   d  8 02 10 01 00 00 00 00 00\n".toList
      = Outcome.record ⟨"0.100000".toList,
          decode_fields "7E0".toList "8 02 10 01 00 00 00 00 00\n".toList⟩
    ∧ (sscanf_line "0.100000 1 7E0 Rx   d  12 02 10 01 00 00 00 00 00\n".toList).map
        (fun sc => sc.temp_num_item) = some "12".toList
    ∧ run_line "0.100000 12 7E0 Rx   d 8 11 22 33 44 55 66 77 88\n".toList
      = run_line "0.100000 1 7E0 Rx   d 2 11 22 33 44 55 66 77 88\n".toList
    ∧ (decode_line "0.100000 1 7E0 Rx   d 2 11 22 33 44 55 66 77 88\n".toList).map
        (fun d => d.fields.data_int_list)
        = some [0x11, 0x22, 0x33, 0x44, 0x55, 0x66, 0x77, 0x88] := by
  refine ⟨by decide, by decide, by decide, by decide, by decide, by decide, by decide,
    by decide, by decide, by decide⟩

end ASCParser
